import Mathlib

/-!
# monitorConnections: connection tracker of `monitor.go`

A shallow embedding of `src/monitor.go`.  The global `connectionStateTable`
(a Go `map[string]*Connection`) becomes an explicit total function from key
strings to optional records that is threaded through the packet handlers; the
text written to standard output becomes a list of emissions returned by each
handler.  The three command line flags are read-only after start-up and are
passed as a record.  `time.Sleep` in the printers has no effect on table or
output and is not represented.
-/

namespace Monitor

/-! ## Data model -/

/-- The Go struct `Connection`; ports are `uint16` values held as naturals. -/
structure Connection where
  SrcIP : String
  SrcPort : Nat
  DstIP : String
  DstPort : Nat
  Protocol : String
deriving DecidableEq

/-- A four byte `net.IP`, as `layers.IPv4` stores `SrcIP` and `DstIP`. -/
structure IP where
  b0 : Nat
  b1 : Nat
  b2 : Nat
  b3 : Nat
deriving DecidableEq

/-- Every octet of the address fits a byte. -/
def IP.valid (ip : IP) : Prop := ip.b0 < 256 ∧ ip.b1 < 256 ∧ ip.b2 < 256 ∧ ip.b3 < 256

instance (ip : IP) : Decidable ip.valid := by
  unfold IP.valid; infer_instance

/-- The bytes of the address, in network order. -/
def IP.bytes (ip : IP) : List Nat := [ip.b0, ip.b1, ip.b2, ip.b3]

/-- The fields of `layers.IPv4` that the program reads. -/
structure IPv4 where
  SrcIP : IP
  DstIP : IP
deriving DecidableEq

/-- The fields of `layers.TCP` that matter: ports and the nine flag bits. -/
structure TCP where
  SrcPort : Nat
  DstPort : Nat
  FIN : Bool
  SYN : Bool
  RST : Bool
  PSH : Bool
  ACK : Bool
  URG : Bool
  ECE : Bool
  CWR : Bool
  NS : Bool
deriving DecidableEq

/-- The fields of `layers.UDP` that the program reads. -/
structure UDP where
  SrcPort : Nat
  DstPort : Nat
deriving DecidableEq

/-- A decoded `gopacket.Packet`: the result of `packet.Layer` for the three
layer types the program asks for (`none` is Go's `nil`). -/
structure Packet where
  ipv4 : Option IPv4
  tcp : Option TCP
  udp : Option UDP
deriving DecidableEq

/-- The package level flag variables. -/
structure Flags where
  excludePublic : Bool
  excludeUDP : Bool
  generateCSV : Bool
deriving DecidableEq

/-- The map `connectionStateTable`. -/
abbrev Table := String → Option Connection

/-- The value of `connectionStateTable` at start-up: `make(map[string]*Connection)`. -/
def emptyTable : Table := fun _ => none

/-- Go `m[k] = v`. -/
def Table.set (t : Table) (k : String) (v : Connection) : Table :=
  fun k2 => if k2 = k then some v else t k2

/-- Go `delete(m, k)`. -/
def Table.delete (t : Table) (k : String) : Table :=
  fun k2 => if k2 = k then none else t k2

/-- One call of a printer: the record handed to it and the text it wrote. -/
structure Emission where
  conn : Connection
  text : String
deriving DecidableEq

/-! ## Formatting (`fmt`, `net.IP.String`) -/

/-- The character of a decimal digit, `'0' + d`. -/
def digitChar (d : Nat) : Char := Char.ofNat (48 + d)

/-- The digit loop of `strconv` for base ten: the least significant digit is
written first, in front of what is already in the buffer. -/
def formatBits10 : Nat → Nat → List Char → List Char
  | 0, _, acc => acc
  | fuel + 1, u, acc =>
    if u < 10 then digitChar u :: acc
    else formatBits10 fuel (u / 10) (digitChar (u % 10) :: acc)

/-- The verb `%d` on an unsigned value. -/
def formatDecimal (u : Nat) : List Char := formatBits10 (u + 1) u []

/-- The method `net.IP.String` on a four byte address: dotted decimal. -/
def IP.String (ip : IP) : String :=
  ⟨formatDecimal ip.b0 ++ '.' :: formatDecimal ip.b1 ++ '.' :: formatDecimal ip.b2
    ++ '.' :: formatDecimal ip.b3⟩

/-- An operand of `fmt.Sprintf`. -/
inductive Arg where
  | str (s : String)
  | int (n : Nat)

/-- The part of `fmt.Sprintf` the program uses: the verbs `%s` on a string
operand and `%d` on an integer operand; every other character is copied. -/
def sprintfAux : List Char → List Arg → List Char
  | [], _ => []
  | '%' :: 's' :: rest, Arg.str s :: args => s.data ++ sprintfAux rest args
  | '%' :: 'd' :: rest, Arg.int n :: args => formatDecimal n ++ sprintfAux rest args
  | c :: rest, args => c :: sprintfAux rest args

/-- The function `fmt.Sprintf` on a format string and its operands. -/
def sprintf (format : String) (args : List Arg) : String := ⟨sprintfAux format.data args⟩

/-! ## The address filter (`isPrivateIP`) -/

/-- The loop of `net.CIDRMask`: `l` bytes are still to be written and `n` one
bits are still to be placed; `^byte(0xff >> n)` is `255 - (255 >>> n)`. -/
def cidrMaskLoop : Nat → Nat → List Nat
  | 0, _ => []
  | l + 1, n =>
    if 8 ≤ n then 255 :: cidrMaskLoop l (n - 8)
    else (255 - (255 >>> n)) :: cidrMaskLoop l 0

/-- The function `net.CIDRMask(ones, 32)`: four mask bytes. -/
def cidrMask32 (ones : Nat) : List Nat := cidrMaskLoop 4 ones

/-- A `net.IPNet` whose `IP` is an IPv4 address. -/
structure IPNet where
  IP : IP
  Mask : List Nat

/-- The method `net.IPNet.Contains` on a four byte address: byte by byte, the
masked network number equals the masked address. -/
def IPNet.Contains (n : IPNet) (ip : Monitor.IP) : Bool :=
  n.Mask.length == 4 &&
    (List.zip (List.zip n.IP.bytes ip.bytes) n.Mask).all
      fun x => (x.1.1 &&& x.2) == (x.1.2 &&& x.2)

/-- The slice `privateIPBlocks` of `isPrivateIP`. -/
def privateIPBlocks : List IPNet :=
  [ { IP := ⟨10, 0, 0, 0⟩, Mask := cidrMask32 8 },
    { IP := ⟨172, 16, 0, 0⟩, Mask := cidrMask32 12 },
    { IP := ⟨192, 168, 0, 0⟩, Mask := cidrMask32 16 } ]

/-- The function `isPrivateIP`: some block contains the address. -/
def isPrivateIP (ip : IP) : Bool := privateIPBlocks.any fun block => block.Contains ip

/-! ## The printers -/

/-- The text `printConnection` writes to standard output. -/
def printConnection (conn : Connection) : String :=
  sprintf "Initiated Connection - Src: %s:%d -> Dst: %s:%d, Protocol: %s\n"
    [Arg.str conn.SrcIP, Arg.int conn.SrcPort, Arg.str conn.DstIP, Arg.int conn.DstPort,
      Arg.str conn.Protocol]

/-- The text `printCSVConnection` writes to standard output. -/
def printCSVConnection (conn : Connection) : String :=
  sprintf "%s,%s,%s:%d\n"
    [Arg.str conn.SrcIP, Arg.str conn.DstIP, Arg.str conn.Protocol, Arg.int conn.DstPort]

/-- The branch `if generateCSV { printCSVConnection(conn) } else { printConnection(conn) }`. -/
def emit (generateCSV : Bool) (conn : Connection) : Emission :=
  if generateCSV then ⟨conn, printCSVConnection conn⟩ else ⟨conn, printConnection conn⟩

/-! ## The packet handlers -/

/-- The key `fmt.Sprintf("%s:%d -> %s:%d", ip.SrcIP, srcPort, ip.DstIP, dstPort)`. -/
def connKey (src : IP) (srcPort : Nat) (dst : IP) (dstPort : Nat) : String :=
  sprintf "%s:%d -> %s:%d" [Arg.str src.String, Arg.int srcPort, Arg.str dst.String,
    Arg.int dstPort]

/-- The function `processTCPConnection`: the new table and what was printed. -/
def processTCPConnection (generateCSV : Bool) (t : Table) (ip : IPv4) (tcp : TCP) :
    Table × List Emission :=
  let key := connKey ip.SrcIP tcp.SrcPort ip.DstIP tcp.DstPort
  if tcp.SYN && !tcp.ACK then
    (t.set key
      { SrcIP := ip.SrcIP.String, SrcPort := tcp.SrcPort, DstIP := ip.DstIP.String,
        DstPort := tcp.DstPort, Protocol := "TCP" }, [])
  else if tcp.ACK && !tcp.SYN && !tcp.FIN && !tcp.RST then
    match t key with
    | some conn => (t.delete key, [emit generateCSV conn])
    | none => (t, [])
  else (t, [])

/-- The function `processUDPConnection`: the new table and what was printed. -/
def processUDPConnection (generateCSV : Bool) (t : Table) (ip : IPv4) (udp : UDP) :
    Table × List Emission :=
  let key := connKey ip.SrcIP udp.SrcPort ip.DstIP udp.DstPort
  match t key with
  | none =>
    let conn : Connection :=
      { SrcIP := ip.SrcIP.String, SrcPort := udp.SrcPort, DstIP := ip.DstIP.String,
        DstPort := udp.DstPort, Protocol := "UDP" }
    (t.set key conn, [emit generateCSV conn])
  | some _ => (t, [])

/-- The test of `processPacket` that drops a frame on its addresses. -/
def addressFilterDrops (excludePublic : Bool) (ip : IPv4) : Bool :=
  excludePublic && (!isPrivateIP ip.SrcIP || !isPrivateIP ip.DstIP)

/-- The function `processPacket`: the new table and what was printed. -/
def processPacket (fl : Flags) (t : Table) (packet : Packet) : Table × List Emission :=
  match packet.ipv4 with
  | none => (t, [])
  | some ip =>
    if addressFilterDrops fl.excludePublic ip then (t, [])
    else
      match packet.tcp with
      | some tcp => processTCPConnection fl.generateCSV t ip tcp
      | none =>
        if !fl.excludeUDP then
          match packet.udp with
          | some udp => processUDPConnection fl.generateCSV t ip udp
          | none => (t, [])
        else (t, [])

/-- The loop of `main`: the packets of a stream are handled in order.  The
result is the final table and everything printed, in order. -/
def run (fl : Flags) : Table → List Packet → Table × List Emission
  | t, [] => (t, [])
  | t, p :: ps =>
    let r := processPacket fl t p
    let rest := run fl r.1 ps
    (rest.1, r.2 ++ rest.2)

/-! ## Flows and packet classes -/

/-- The number a list of digit characters denotes, most significant first. -/
def decimalValue (cs : List Char) : Nat := cs.foldl (fun v c => 10 * v + (c.toNat - 48)) 0

/-- A directional flow: the four values both handlers build the key from. -/
structure Flow where
  src : IP
  srcPort : Nat
  dst : IP
  dstPort : Nat
deriving DecidableEq

/-- The key string of a flow. -/
def Flow.key (K : Flow) : String := connKey K.src K.srcPort K.dst K.dstPort

/-- The record both handlers build for a flow, with the given protocol tag. -/
def Flow.record (K : Flow) (proto : String) : Connection :=
  { SrcIP := K.src.String, SrcPort := K.srcPort, DstIP := K.dst.String,
    DstPort := K.dstPort, Protocol := proto }

/-- The flow of the arguments of `processTCPConnection`. -/
def tcpFlow (ip : IPv4) (tcp : TCP) : Flow := ⟨ip.SrcIP, tcp.SrcPort, ip.DstIP, tcp.DstPort⟩

/-- The flow of the arguments of `processUDPConnection`. -/
def udpFlow (ip : IPv4) (udp : UDP) : Flow := ⟨ip.SrcIP, udp.SrcPort, ip.DstIP, udp.DstPort⟩

/-- The flow `processPacket` would compute the key of: the TCP layer is asked
for first, the UDP layer only when there is no TCP layer. -/
def Packet.flow (p : Packet) : Option Flow :=
  match p.ipv4, p.tcp, p.udp with
  | some ip, some tcp, _ => some (tcpFlow ip tcp)
  | some ip, none, some udp => some (udpFlow ip udp)
  | _, _, _ => none

/-- A frame with an IPv4 and a TCP layer. -/
def Packet.isTCP (p : Packet) : Bool := p.ipv4.isSome && p.tcp.isSome

/-- A frame with an IPv4 and a UDP layer and no TCP layer. -/
def Packet.isUDP (p : Packet) : Bool := p.ipv4.isSome && p.tcp.isNone && p.udp.isSome

/-- A TCP initiation packet of flow `K`: SYN set, ACK clear. -/
def isInitiation (K : Flow) (p : Packet) : Bool :=
  match p.ipv4, p.tcp with
  | some ip, some tcp => decide (tcpFlow ip tcp = K) && (tcp.SYN && !tcp.ACK)
  | _, _ => false

/-- A TCP completion packet of flow `K`: ACK set; SYN, FIN and RST clear. -/
def isCompletion (K : Flow) (p : Packet) : Bool :=
  match p.ipv4, p.tcp with
  | some ip, some tcp =>
    decide (tcpFlow ip tcp = K) && (tcp.ACK && !tcp.SYN && !tcp.FIN && !tcp.RST)
  | _, _ => false

/-- A UDP packet of flow `K`. -/
def isUDPFor (K : Flow) (p : Packet) : Bool :=
  match p.ipv4, p.tcp, p.udp with
  | some ip, none, some udp => decide (udpFlow ip udp = K)
  | _, _, _ => false

/-- Both addresses of the flow are private. -/
def Flow.bothPrivate (K : Flow) : Bool := isPrivateIP K.src && isPrivateIP K.dst

/-- Every entry is stored under the key of its own record, and its record is
one a handler builds. -/
def Coherent (t : Table) : Prop :=
  ∀ k c, t k = some c → ∃ K : Flow, k = K.key ∧ (c = K.record "TCP" ∨ c = K.record "UDP")

/-- The four ways a call of `processPacket` can end. -/
inductive Step (fl : Flags) (t : Table) (p : Packet) : Table × List Emission → Prop
  | idle : Step fl t p (t, [])
  | syn (K : Flow) : p.flow = some K → isInitiation K p = true →
      (fl.excludePublic = true → K.bothPrivate = true) →
      Step fl t p (t.set K.key (K.record "TCP"), [])
  | ack (K : Flow) (conn : Connection) : p.flow = some K → isCompletion K p = true →
      (fl.excludePublic = true → K.bothPrivate = true) → t K.key = some conn →
      Step fl t p (t.delete K.key, [emit fl.generateCSV conn])
  | udp (K : Flow) : p.flow = some K → isUDPFor K p = true →
      (fl.excludePublic = true → K.bothPrivate = true) → fl.excludeUDP = false →
      t K.key = none →
      Step fl t p (t.set K.key (K.record "UDP"), [emit fl.generateCSV (K.record "UDP")])

/-- The number of records of flow `K` tagged TCP among the emissions. -/
def tcpEmissionsFor (K : Flow) (es : List Emission) : Nat :=
  es.countP fun e => decide (e.conn = K.record "TCP")

/-- The emissions of a run that happen while a packet of the class `sel` is
processed. -/
def runOn (fl : Flags) (sel : Packet → Bool) : Table → List Packet → List Emission
  | _, [] => []
  | t, p :: ps =>
    (if sel p then (processPacket fl t p).2 else []) ++ runOn fl sel (processPacket fl t p).1 ps

/-! ## Concrete frames -/

/-- All three flags off: text output. -/
def textFlags : Flags := { excludePublic := false, excludeUDP := false, generateCSV := false }

/-- Only `generate-csv` on. -/
def csvFlags : Flags := { excludePublic := false, excludeUDP := false, generateCSV := true }

/-- Only `exclude-public` on. -/
def privateOnlyFlags : Flags :=
  { excludePublic := true, excludeUDP := false, generateCSV := false }

/-- The address 10.0.0.1. -/
def clientIP : IP := ⟨10, 0, 0, 1⟩

/-- The address 93.184.216.34. -/
def serverIP : IP := ⟨93, 184, 216, 34⟩

/-- A TCP segment with the given SYN and ACK bits and every other flag clear. -/
def tcpSegment (srcPort dstPort : Nat) (syn ack : Bool) : TCP :=
  { SrcPort := srcPort, DstPort := dstPort, FIN := false, SYN := syn, RST := false,
    PSH := false, ACK := ack, URG := false, ECE := false, CWR := false, NS := false }

/-- An IPv4 frame that carries a TCP segment. -/
def tcpPacket (src dst : IP) (srcPort dstPort : Nat) (syn ack : Bool) : Packet :=
  { ipv4 := some ⟨src, dst⟩, tcp := some (tcpSegment srcPort dstPort syn ack), udp := none }

/-- An IPv4 frame that carries a UDP datagram. -/
def udpPacket (src dst : IP) (srcPort dstPort : Nat) : Packet :=
  { ipv4 := some ⟨src, dst⟩, tcp := none, udp := some ⟨srcPort, dstPort⟩ }

/-- Both address strings of the record are the text of a private address. -/
def Connection.bothPrivate (c : Connection) : Prop :=
  ∃ s d : IP, c.SrcIP = s.String ∧ c.DstIP = d.String ∧ isPrivateIP s = true ∧
    isPrivateIP d = true

/-- The addresses of the IPv4 layer of the frame are both private. -/
def Packet.bothPrivate (p : Packet) : Bool :=
  match p.ipv4 with
  | some ip => isPrivateIP ip.SrcIP && isPrivateIP ip.DstIP
  | none => false

/-- Every record in the table has two private addresses. -/
def PrivateOnly (t : Table) : Prop := ∀ k c, t k = some c → c.bothPrivate

/-- The three private blocks in the words of the specification: 10.0.0.0/8,
172.16.0.0/12 and 192.168.0.0/16 as conditions on the first two octets. -/
def IP.inPrivateBlocks (ip : IP) : Prop :=
  ip.b0 = 10 ∨ (ip.b0 = 172 ∧ 16 ≤ ip.b1 ∧ ip.b1 ≤ 31) ∨ (ip.b0 = 192 ∧ ip.b1 = 168)

instance (ip : IP) : Decidable ip.inPrivateBlocks := by
  unfold IP.inPrivateBlocks; infer_instance

/-- A decimal number as a string. -/
def decimalString (n : Nat) : String := ⟨formatDecimal n⟩

/-! ## Decimal rendering and the key string -/

theorem digitChar_toNat (d : Nat) (h : d < 10) : (digitChar d).toNat = 48 + d := by
  interval_cases d <;> rfl

theorem digitChar_isDigit (d : Nat) (h : d < 10) : (digitChar d).isDigit = true := by
  interval_cases d <;> rfl

theorem formatBits10_spec (fuel : Nat) : ∀ (u : Nat) (acc : List Char), u < fuel →
    ∃ ds : List Char, formatBits10 fuel u acc = ds ++ acc ∧ ds ≠ [] ∧
      (∀ c ∈ ds, c.isDigit = true) ∧ ds.foldl (fun v c => 10 * v + (c.toNat - 48)) 0 = u := by
  induction fuel with
  | zero => intro u acc h; omega
  | succ n ih =>
    intro u acc h
    by_cases hu : u < 10
    · refine ⟨[digitChar u], ?_, by simp, ?_, ?_⟩
      · simp [formatBits10, hu]
      · intro c hc
        simp only [List.mem_singleton] at hc
        rw [hc]; exact digitChar_isDigit u hu
      · simp [digitChar_toNat u hu]
    · have hlt : u / 10 < n := by omega
      obtain ⟨ds, h1, h2, h3, h4⟩ := ih (u / 10) (digitChar (u % 10) :: acc) hlt
      have hm : u % 10 < 10 := Nat.mod_lt _ (by decide)
      refine ⟨ds ++ [digitChar (u % 10)], ?_, by simp, ?_, ?_⟩
      · simp [formatBits10, hu, h1]
      · intro c hc
        rcases List.mem_append.1 hc with hc | hc
        · exact h3 c hc
        · simp only [List.mem_singleton] at hc
          rw [hc]; exact digitChar_isDigit _ hm
      · rw [List.foldl_append, h4]
        simp [digitChar_toNat _ hm]
        omega

theorem formatDecimal_isDigit (u : Nat) : ∀ c ∈ formatDecimal u, c.isDigit = true := by
  obtain ⟨ds, h1, _, h3, _⟩ := formatBits10_spec (u + 1) u [] (Nat.lt_succ_self u)
  intro c hc
  unfold formatDecimal at hc
  rw [h1, List.append_nil] at hc
  exact h3 c hc

theorem formatDecimal_value (u : Nat) : decimalValue (formatDecimal u) = u := by
  obtain ⟨ds, h1, _, _, h4⟩ := formatBits10_spec (u + 1) u [] (Nat.lt_succ_self u)
  unfold formatDecimal decimalValue
  rw [h1, List.append_nil]
  exact h4

theorem formatDecimal_ne_nil (u : Nat) : formatDecimal u ≠ [] := by
  obtain ⟨ds, h1, h2, _, _⟩ := formatBits10_spec (u + 1) u [] (Nat.lt_succ_self u)
  unfold formatDecimal
  rw [h1, List.append_nil]
  exact h2

theorem formatDecimal_injective {u v : Nat} (h : formatDecimal u = formatDecimal v) : u = v := by
  have := congrArg decimalValue h
  rwa [formatDecimal_value, formatDecimal_value] at this

/-- Two texts that each start with a run of digits closed by a character that
is no digit are equal only when the runs, the closing characters and the
remainders are equal. -/
theorem digits_sep_inj : ∀ (xs ys : List Char) (c d : Char) (r s : List Char),
    (∀ x ∈ xs, x.isDigit = true) → (∀ y ∈ ys, y.isDigit = true) →
    c.isDigit = false → d.isDigit = false →
    xs ++ c :: r = ys ++ d :: s → xs = ys ∧ r = s := by
  intro xs
  induction xs with
  | nil =>
    intro ys c d r s _ hy hc _ h
    cases ys with
    | nil => simp at h; exact ⟨rfl, h.2⟩
    | cons y ys =>
      simp at h
      have := hy y (by simp)
      rw [← h.1, hc] at this
      cases this
  | cons x xs ih =>
    intro ys c d r s hx hy hc hd h
    cases ys with
    | nil =>
      simp at h
      have := hx x (by simp)
      rw [h.1, hd] at this
      cases this
    | cons y ys =>
      simp at h
      obtain ⟨h1, h2⟩ := ih ys c d r s (fun a ha => hx a (by simp [ha]))
        (fun a ha => hy a (by simp [ha])) hc hd h.2
      exact ⟨by rw [h.1, h1], h2⟩

theorem IP.String_data (ip : IP) : ip.String.data =
    formatDecimal ip.b0 ++ '.' :: (formatDecimal ip.b1 ++ '.' :: (formatDecimal ip.b2
      ++ '.' :: formatDecimal ip.b3)) := by
  simp [IP.String]

theorem connKey_data (src : IP) (sp : Nat) (dst : IP) (dp : Nat) :
    (connKey src sp dst dp).data =
      src.String.data ++ ':' :: (formatDecimal sp ++ ' ' :: '-' :: '>' :: ' ' ::
        (dst.String.data ++ ':' :: formatDecimal dp)) := by
  simp [connKey, sprintf, sprintfAux]

theorem IP.String_sep_inj (a b : IP) (c d : Char) (r s : List Char)
    (hc : c.isDigit = false) (hd : d.isDigit = false)
    (h : a.String.data ++ c :: r = b.String.data ++ d :: s) : a = b ∧ r = s := by
  rw [IP.String_data, IP.String_data] at h
  simp only [List.append_assoc, List.cons_append] at h
  obtain ⟨h0, h⟩ := digits_sep_inj _ _ _ _ _ _ (formatDecimal_isDigit _)
    (formatDecimal_isDigit _) (by decide) (by decide) h
  obtain ⟨h1, h⟩ := digits_sep_inj _ _ _ _ _ _ (formatDecimal_isDigit _)
    (formatDecimal_isDigit _) (by decide) (by decide) h
  obtain ⟨h2, h⟩ := digits_sep_inj _ _ _ _ _ _ (formatDecimal_isDigit _)
    (formatDecimal_isDigit _) (by decide) (by decide) h
  obtain ⟨h3, h⟩ := digits_sep_inj _ _ _ _ _ _ (formatDecimal_isDigit _)
    (formatDecimal_isDigit _) hc hd h
  refine ⟨?_, h⟩
  cases a; cases b
  simp only [IP.mk.injEq]
  exact ⟨formatDecimal_injective h0, formatDecimal_injective h1,
    formatDecimal_injective h2, formatDecimal_injective h3⟩

theorem IP.String_injective {a b : IP} (h : a.String = b.String) : a = b := by
  have h2 : a.String.data ++ [':'] = b.String.data ++ [':'] := by rw [h]
  exact (IP.String_sep_inj a b ':' ':' [] [] (by decide) (by decide) h2).1

theorem connKey_injective {s1 d1 s2 d2 : IP} {p1 q1 p2 q2 : Nat}
    (h : connKey s1 p1 d1 q1 = connKey s2 p2 d2 q2) :
    s1 = s2 ∧ p1 = p2 ∧ d1 = d2 ∧ q1 = q2 := by
  have h := congrArg String.data h
  rw [connKey_data, connKey_data] at h
  obtain ⟨hs, h⟩ := IP.String_sep_inj _ _ _ _ _ _ (by decide) (by decide) h
  obtain ⟨hp, h⟩ := digits_sep_inj _ _ _ _ _ _ (formatDecimal_isDigit _)
    (formatDecimal_isDigit _) (by decide) (by decide) h
  simp only [List.cons.injEq, true_and] at h
  obtain ⟨hd, h⟩ := IP.String_sep_inj _ _ _ _ _ _ (by decide) (by decide) h
  exact ⟨hs, formatDecimal_injective hp, hd, formatDecimal_injective h⟩

/-! ## One step of `processPacket` -/

theorem Flow.key_injective {K L : Flow} (h : K.key = L.key) : K = L := by
  obtain ⟨h1, h2, h3, h4⟩ := connKey_injective h
  cases K; cases L; simp_all

theorem Flow.record_injective {K L : Flow} {a b : String} (h : K.record a = L.record b) :
    K = L ∧ a = b := by
  simp only [Flow.record, Connection.mk.injEq] at h
  obtain ⟨h1, h2, h3, h4, h5⟩ := h
  refine ⟨?_, h5⟩
  cases K; cases L
  simp only [Flow.mk.injEq]
  exact ⟨IP.String_injective h1, h2, IP.String_injective h3, h4⟩

theorem processPacket_step (fl : Flags) (t : Table) (p : Packet) :
    Step fl t p (processPacket fl t p) := by
  obtain ⟨ipv4, tcpL, udpL⟩ := p
  cases ipv4 with
  | none => exact Step.idle
  | some ip =>
    by_cases hd : addressFilterDrops fl.excludePublic ip = true
    · simp only [processPacket, hd, if_true]; exact Step.idle
    · have hpriv : ∀ K : Flow, K.src = ip.SrcIP → K.dst = ip.DstIP →
          fl.excludePublic = true → K.bothPrivate = true := by
        intro K h1 h2 h3
        simp only [addressFilterDrops, h3, Bool.true_and, Bool.or_eq_true, Bool.not_eq_true',
          not_or, Bool.not_eq_false] at hd
        simp [Flow.bothPrivate, h1, h2, hd.1, hd.2]
      cases tcpL with
      | some tcp =>
        simp only [processPacket, hd, processTCPConnection]
        by_cases hs : (tcp.SYN && !tcp.ACK) = true
        · simp only [hs, if_true]
          exact Step.syn (tcpFlow ip tcp) rfl (by simp [isInitiation, hs])
            (hpriv _ rfl rfl)
        · by_cases ha : (tcp.ACK && !tcp.SYN && !tcp.FIN && !tcp.RST) = true
          · simp only [hs, ha, if_true]
            cases hk : t (connKey ip.SrcIP tcp.SrcPort ip.DstIP tcp.DstPort) with
            | none => exact Step.idle
            | some conn =>
              exact Step.ack (tcpFlow ip tcp) conn rfl (by simp [isCompletion, ha])
                (hpriv _ rfl rfl) hk
          · simp only [hs, ha]; exact Step.idle
      | none =>
        by_cases hu : fl.excludeUDP = true
        · simp only [processPacket, hd, hu]; exact Step.idle
        · cases udpL with
          | none => simp only [processPacket, hd, hu]; exact Step.idle
          | some udp =>
            simp only [processPacket, hd, hu, processUDPConnection]
            cases hk : t (connKey ip.SrcIP udp.SrcPort ip.DstIP udp.DstPort) with
            | none =>
              exact Step.udp (udpFlow ip udp) rfl (by simp [isUDPFor])
                (hpriv _ rfl rfl) (by simpa using hu) hk
            | some conn => exact Step.idle

@[simp] theorem emit_conn (g : Bool) (c : Connection) : (emit g c).conn = c := by
  cases g <;> rfl

@[simp] theorem Table.set_self (t : Table) (k : String) (v : Connection) :
    t.set k v k = some v := by simp [Table.set]

@[simp] theorem Table.delete_self (t : Table) (k : String) : t.delete k k = none := by
  simp [Table.delete]

theorem Table.set_other (t : Table) {k k2 : String} (v : Connection) (h : k2 ≠ k) :
    t.set k v k2 = t k2 := by simp [Table.set, h]

theorem Table.delete_other (t : Table) {k k2 : String} (h : k2 ≠ k) :
    t.delete k k2 = t k2 := by simp [Table.delete, h]

theorem coherent_empty : Coherent emptyTable := by
  intro k c h; simp [emptyTable] at h

theorem coherent_set {t : Table} (h : Coherent t) (K : Flow) (proto : String)
    (hp : proto = "TCP" ∨ proto = "UDP") : Coherent (t.set K.key (K.record proto)) := by
  intro k c hk
  by_cases hkk : k = K.key
  · subst hkk
    rw [Table.set_self] at hk
    cases hk
    exact ⟨K, rfl, by rcases hp with hp | hp <;> simp [hp]⟩
  · rw [Table.set_other _ _ hkk] at hk
    exact h k c hk

theorem coherent_delete {t : Table} (h : Coherent t) (k0 : String) :
    Coherent (t.delete k0) := by
  intro k c hk
  by_cases hkk : k = k0
  · subst hkk; simp at hk
  · rw [Table.delete_other _ hkk] at hk
    exact h k c hk

theorem Step.coherent {fl : Flags} {t : Table} {p : Packet} {r : Table × List Emission}
    (h : Step fl t p r) (ht : Coherent t) : Coherent r.1 := by
  cases h with
  | idle => exact ht
  | syn K _ _ _ => exact coherent_set ht K _ (Or.inl rfl)
  | ack K conn _ _ _ _ => exact coherent_delete ht _
  | udp K _ _ _ _ _ => exact coherent_set ht K _ (Or.inr rfl)

theorem Step.frame {fl : Flags} {t : Table} {p : Packet} {r : Table × List Emission}
    (h : Step fl t p r) (k : String) (hk : ∀ K, p.flow = some K → k ≠ K.key) :
    r.1 k = t k := by
  cases h with
  | idle => rfl
  | syn K hf _ _ => exact Table.set_other _ _ (hk K hf)
  | ack K conn hf _ _ _ => exact Table.delete_other _ (hk K hf)
  | udp K hf _ _ _ _ => exact Table.set_other _ _ (hk K hf)

theorem Step.length_le_one {fl : Flags} {t : Table} {p : Packet} {r : Table × List Emission}
    (h : Step fl t p r) : r.2.length ≤ 1 := by
  cases h <;> simp

/-- In a coherent table the record stored under the key of `K` is a record of `K`. -/
theorem Coherent.at_key {t : Table} (ht : Coherent t) {K : Flow} {c : Connection}
    (h : t K.key = some c) : c = K.record "TCP" ∨ c = K.record "UDP" := by
  obtain ⟨L, hL, hc⟩ := ht _ _ h
  have := Flow.key_injective hL
  subst this
  exact hc

theorem Step.tcp_emission {fl : Flags} {t : Table} {p : Packet} {r : Table × List Emission}
    (h : Step fl t p r) (ht : Coherent t) {K : Flow} {e : Emission} (he : e ∈ r.2)
    (hc : e.conn = K.record "TCP") :
    isCompletion K p = true ∧ t K.key = some (K.record "TCP") ∧ r.1 K.key = none ∧
      r.2 = [e] := by
  cases h with
  | idle => simp at he
  | syn L _ _ _ => simp at he
  | ack L conn hf hcomp _ hk =>
    simp only [List.mem_singleton] at he
    subst he
    rw [emit_conn] at hc
    subst hc
    have hL : L = K := by
      rcases ht.at_key hk with h1 | h1
      · exact (Flow.record_injective h1).1.symm
      · exact (Flow.record_injective h1).1.symm
    subst hL
    exact ⟨hcomp, hk, by simp, rfl⟩
  | udp L _ _ _ _ _ =>
    simp only [List.mem_singleton] at he
    subst he
    rw [emit_conn] at hc
    have := (Flow.record_injective hc).2
    exact absurd this (by decide)

theorem isInitiation_flow {K : Flow} {p : Packet} (h : isInitiation K p = true) :
    p.flow = some K := by
  obtain ⟨ipv4, tcpL, udpL⟩ := p
  cases ipv4 <;> cases tcpL <;> simp_all [isInitiation, Packet.flow]

theorem isCompletion_flow {K : Flow} {p : Packet} (h : isCompletion K p = true) :
    p.flow = some K := by
  obtain ⟨ipv4, tcpL, udpL⟩ := p
  cases ipv4 <;> cases tcpL <;> simp_all [isCompletion, Packet.flow]

theorem isUDPFor_flow {K : Flow} {p : Packet} (h : isUDPFor K p = true) :
    p.flow = some K := by
  obtain ⟨ipv4, tcpL, udpL⟩ := p
  cases ipv4 <;> cases tcpL <;> cases udpL <;> simp_all [isUDPFor, Packet.flow]

theorem isInitiation_of_flow {K L : Flow} {p : Packet} (h : isInitiation L p = true)
    (hf : p.flow = some K) : isInitiation K p = true := by
  have := isInitiation_flow h
  rw [hf] at this
  cases this; exact h

theorem Step.pending {fl : Flags} {t : Table} {p : Packet} {r : Table × List Emission}
    (h : Step fl t p r) (ht : Coherent t) {K : Flow}
    (hk : r.1 K.key = some (K.record "TCP")) :
    isInitiation K p = true ∨
      (t K.key = some (K.record "TCP") ∧ ∀ e ∈ r.2, e.conn ≠ K.record "TCP") := by
  by_cases hf : p.flow = some K
  · cases h with
    | idle => exact Or.inr ⟨hk, by simp⟩
    | syn L _ hi _ => exact Or.inl (isInitiation_of_flow hi hf)
    | ack L conn hf2 _ _ _ =>
      rw [hf] at hf2; cases hf2
      simp at hk
    | udp L hf2 _ _ _ _ =>
      rw [hf] at hf2; cases hf2
      simp only [Table.set_self, Option.some.injEq] at hk
      exact absurd (Flow.record_injective hk).2 (by decide)
  · right
    have hfr := h.frame K.key (fun L hL heq => hf (by rw [hL, Flow.key_injective heq]))
    rw [hfr] at hk
    refine ⟨hk, ?_⟩
    intro e he hc
    have := (h.tcp_emission ht he hc).1
    exact hf (isCompletion_flow this)

/-! ## Runs -/

@[simp] theorem run_nil (fl : Flags) (t : Table) : run fl t [] = (t, []) := rfl

theorem run_cons (fl : Flags) (t : Table) (p : Packet) (ps : List Packet) :
    run fl t (p :: ps) =
      ((run fl (processPacket fl t p).1 ps).1,
        (processPacket fl t p).2 ++ (run fl (processPacket fl t p).1 ps).2) := rfl

theorem run_append (fl : Flags) : ∀ (t : Table) (a b : List Packet),
    run fl t (a ++ b) =
      ((run fl (run fl t a).1 b).1, (run fl t a).2 ++ (run fl (run fl t a).1 b).2)
  | t, [], b => by simp
  | t, p :: a, b => by
    simp only [List.cons_append, run_cons, run_append fl _ a b, List.append_assoc]

theorem run_singleton (fl : Flags) (t : Table) (p : Packet) :
    run fl t [p] = processPacket fl t p := by
  simp [run_cons]

theorem run_coherent (fl : Flags) : ∀ (ps : List Packet) (t : Table), Coherent t →
    Coherent (run fl t ps).1
  | [], t, h => h
  | p :: ps, t, h => by
    rw [run_cons]
    exact run_coherent fl ps _ ((processPacket_step fl t p).coherent h)

theorem processPacket_initiation (fl : Flags) (t : Table) {K : Flow} {p : Packet}
    (h : isInitiation K p = true) : (processPacket fl t p).2 = [] := by
  obtain ⟨ipv4, tcpL, udpL⟩ := p
  cases ipv4 with
  | none => rfl
  | some ip =>
    cases tcpL with
    | none => simp [isInitiation] at h
    | some tcp =>
      simp only [isInitiation, Bool.and_eq_true] at h
      simp only [processPacket, processTCPConnection, h.2]
      split <;> simp

theorem pending_history (fl : Flags) (K : Flow) (pre : List Packet) :
    (run fl emptyTable pre).1 K.key = some (K.record "TCP") →
    ∃ pre1 q pre2, pre = pre1 ++ q :: pre2 ∧ isInitiation K q = true ∧
      ∀ e ∈ (run fl (run fl emptyTable pre1).1 (q :: pre2)).2, e.conn ≠ K.record "TCP" := by
  induction pre using List.reverseRecOn with
  | nil => intro h; simp [emptyTable] at h
  | append_singleton pre r ih =>
    intro h
    rw [run_append, run_singleton] at h
    have hco : Coherent (run fl emptyTable pre).1 := run_coherent fl pre _ coherent_empty
    rcases (processPacket_step fl _ r).pending hco h with hi | ⟨hp, hne⟩
    · refine ⟨pre, r, [], rfl, hi, ?_⟩
      rw [run_singleton, processPacket_initiation fl _ hi]
      simp
    · obtain ⟨pre1, q, pre2, hsplit, hq, hno⟩ := ih hp
      refine ⟨pre1, q, pre2 ++ [r], by simp [hsplit], hq, ?_⟩
      intro e he
      rw [← List.cons_append, run_append, run_singleton] at he
      rcases List.mem_append.1 he with he | he
      · exact hno e he
      · have hrun : (run fl (run fl emptyTable pre1).1 (q :: pre2)).1 =
            (run fl emptyTable pre).1 := by
          rw [hsplit, run_append]
        rw [hrun] at he
        exact hne e he

theorem step_count_init (fl : Flags) (t : Table) (p : Packet) (ht : Coherent t) (K : Flow) :
    tcpEmissionsFor K (processPacket fl t p).2 +
        (if (processPacket fl t p).1 K.key = some (K.record "TCP") then 1 else 0) ≤
      (if isInitiation K p = true then 1 else 0) +
        (if t K.key = some (K.record "TCP") then 1 else 0) := by
  have hs := processPacket_step fl t p
  by_cases hem : ∃ e ∈ (processPacket fl t p).2, e.conn = K.record "TCP"
  · obtain ⟨e, he, hc⟩ := hem
    obtain ⟨_, h2, h3, h4⟩ := hs.tcp_emission ht he hc
    simp [tcpEmissionsFor, h2, h3, h4, hc]
  · have h0 : tcpEmissionsFor K (processPacket fl t p).2 = 0 := by
      simp only [tcpEmissionsFor, List.countP_eq_zero, decide_eq_true_eq]
      intro e he hc; exact hem ⟨e, he, hc⟩
    rw [h0]
    by_cases hk : (processPacket fl t p).1 K.key = some (K.record "TCP")
    · rcases hs.pending ht hk with hi | ⟨hp, _⟩
      · simp [hi, hk]
      · simp [hp, hk]
    · simp [hk]

theorem step_count_completion (fl : Flags) (t : Table) (p : Packet) (ht : Coherent t)
    (K : Flow) :
    tcpEmissionsFor K (processPacket fl t p).2 ≤ (if isCompletion K p = true then 1 else 0) := by
  have hs := processPacket_step fl t p
  by_cases hem : ∃ e ∈ (processPacket fl t p).2, e.conn = K.record "TCP"
  · obtain ⟨e, he, hc⟩ := hem
    obtain ⟨h1, _, _, h4⟩ := hs.tcp_emission ht he hc
    simp [tcpEmissionsFor, h1, h4, hc]
  · have h0 : tcpEmissionsFor K (processPacket fl t p).2 = 0 := by
      simp only [tcpEmissionsFor, List.countP_eq_zero, decide_eq_true_eq]
      intro e he hc; exact hem ⟨e, he, hc⟩
    rw [h0]; exact Nat.zero_le _

theorem tcpEmissionsFor_append (K : Flow) (a b : List Emission) :
    tcpEmissionsFor K (a ++ b) = tcpEmissionsFor K a + tcpEmissionsFor K b := by
  simp [tcpEmissionsFor, List.countP_append]

theorem run_count_init (fl : Flags) (K : Flow) : ∀ (ps : List Packet) (t : Table),
    Coherent t →
    tcpEmissionsFor K (run fl t ps).2 +
        (if (run fl t ps).1 K.key = some (K.record "TCP") then 1 else 0) ≤
      ps.countP (isInitiation K) + (if t K.key = some (K.record "TCP") then 1 else 0)
  | [], t, _ => by simp [tcpEmissionsFor]
  | p :: ps, t, ht => by
    have h1 := step_count_init fl t p ht K
    have h2 := run_count_init fl K ps _ ((processPacket_step fl t p).coherent ht)
    rw [run_cons, tcpEmissionsFor_append, List.countP_cons]
    simp only at h2 ⊢
    omega

theorem run_count_completion (fl : Flags) (K : Flow) : ∀ (ps : List Packet) (t : Table),
    Coherent t → tcpEmissionsFor K (run fl t ps).2 ≤ ps.countP (isCompletion K)
  | [], t, _ => by simp [tcpEmissionsFor]
  | p :: ps, t, ht => by
    have h1 := step_count_completion fl t p ht K
    have h2 := run_count_completion fl K ps _ ((processPacket_step fl t p).coherent ht)
    rw [run_cons, tcpEmissionsFor_append, List.countP_cons]
    simp only at h2 ⊢
    omega

/-- C1: from the empty table, under any flag settings, a record of flow K
tagged TCP is emitted only while a completion packet of K is processed, and
only after an initiation packet of K since which no TCP record of K has been
emitted; so the TCP emissions of K are at most as many as the initiation
packets of K and at most as many as the completion packets of K. -/
theorem tcp_emission_needs_initiation_then_completion (fl : Flags) (K : Flow)
    (ps : List Packet) :
    (∀ pre p post e, ps = pre ++ p :: post →
        e ∈ (processPacket fl (run fl emptyTable pre).1 p).2 → e.conn = K.record "TCP" →
        isCompletion K p = true ∧
        ∃ pre1 q pre2, pre = pre1 ++ q :: pre2 ∧ isInitiation K q = true ∧
          ∀ e2 ∈ (run fl (run fl emptyTable pre1).1 (q :: pre2)).2,
            e2.conn ≠ K.record "TCP") ∧
    tcpEmissionsFor K (run fl emptyTable ps).2 ≤ ps.countP (isInitiation K) ∧
    tcpEmissionsFor K (run fl emptyTable ps).2 ≤ ps.countP (isCompletion K) := by
  refine ⟨?_, ?_, run_count_completion fl K ps _ coherent_empty⟩
  · intro pre p post e _ he hc
    have hco : Coherent (run fl emptyTable pre).1 := run_coherent fl pre _ coherent_empty
    obtain ⟨h1, h2, _, _⟩ := (processPacket_step fl _ p).tcp_emission hco he hc
    exact ⟨h1, pending_history fl K pre h2⟩
  · have := run_count_init fl K ps _ coherent_empty
    have h0 : emptyTable K.key = none := rfl
    rw [h0] at this
    simp only [reduceCtorEq, if_false, Nat.add_zero] at this
    omega

/-! ## TCP and UDP packets on one key -/

/-- C2: a failing input.  With every flag off and the table empty, after a
TCP initiation packet of 10.0.0.1:5000 -> 93.184.216.34:53 the first UDP
packet of that flow emits nothing; and in the stream UDP, TCP completion, UDP
of that flow all three packets emit the UDP record, the later UDP packet
included. -/
theorem udp_once_fails_with_tcp_on_same_key :
    (processPacket textFlags
        (run textFlags emptyTable [tcpPacket clientIP serverIP 5000 53 true false]).1
        (udpPacket clientIP serverIP 5000 53)).2 = [] ∧
    ((run textFlags emptyTable
        [udpPacket clientIP serverIP 5000 53, tcpPacket clientIP serverIP 5000 53 false true,
          udpPacket clientIP serverIP 5000 53]).2.map fun e => e.conn) =
      [⟨"10.0.0.1", 5000, "93.184.216.34", 53, "UDP"⟩,
        ⟨"10.0.0.1", 5000, "93.184.216.34", 53, "UDP"⟩,
        ⟨"10.0.0.1", 5000, "93.184.216.34", 53, "UDP"⟩] := by
  decide

/-- C3: for every table, output mode and flow, `processTCPConnection` emits
nothing on an initiation packet of the flow, then exactly the record of the
flow tagged TCP on a completion packet of the flow, after which the flow has
no entry, then nothing on the same completion packet again.  From the empty
table in text mode the stream SYN, ACK, ACK of 10.0.0.1:5000 ->
93.184.216.34:443 prints the one line of the scenario. -/
theorem tcp_handshake_emits_once (g : Bool) (t : Table) (ip : IPv4) (syn ack : TCP)
    (hsyn : syn.SYN = true ∧ syn.ACK = false)
    (hack : ack.ACK = true ∧ ack.SYN = false ∧ ack.FIN = false ∧ ack.RST = false)
    (hports : ack.SrcPort = syn.SrcPort ∧ ack.DstPort = syn.DstPort) :
    (processTCPConnection g t ip syn).2 = [] ∧
    (processTCPConnection g (processTCPConnection g t ip syn).1 ip ack).2 =
      [emit g ((tcpFlow ip syn).record "TCP")] ∧
    (processTCPConnection g (processTCPConnection g t ip syn).1 ip ack).1
      (tcpFlow ip syn).key = none ∧
    (processTCPConnection g
      (processTCPConnection g (processTCPConnection g t ip syn).1 ip ack).1 ip ack).2 = [] ∧
    ((run textFlags emptyTable
        [tcpPacket clientIP serverIP 5000 443 true false,
          tcpPacket clientIP serverIP 5000 443 false true,
          tcpPacket clientIP serverIP 5000 443 false true]).2.map fun e => e.text) =
      ["Initiated Connection - Src: 10.0.0.1:5000 -> Dst: 93.184.216.34:443, Protocol: TCP\n"] := by
  obtain ⟨h1, h2⟩ := hsyn
  obtain ⟨h3, h4, h5, h6⟩ := hack
  obtain ⟨h7, h8⟩ := hports
  have hs : processTCPConnection g t ip syn =
      (t.set (tcpFlow ip syn).key ((tcpFlow ip syn).record "TCP"), []) := by
    simp [processTCPConnection, h1, h2, Flow.key, Flow.record, tcpFlow]
  have ha : ∀ t2 : Table, t2 (tcpFlow ip syn).key = some ((tcpFlow ip syn).record "TCP") →
      processTCPConnection g t2 ip ack =
        (t2.delete (tcpFlow ip syn).key, [emit g ((tcpFlow ip syn).record "TCP")]) := by
    intro t2 ht2
    simp only [Flow.key, tcpFlow] at ht2
    simp [processTCPConnection, h3, h4, h5, h6, h7, h8, Flow.key, tcpFlow, ht2]
  have hn : ∀ t2 : Table, t2 (tcpFlow ip syn).key = none →
      processTCPConnection g t2 ip ack = (t2, []) := by
    intro t2 ht2
    simp only [Flow.key, tcpFlow] at ht2
    simp [processTCPConnection, h3, h4, h5, h6, h7, h8, ht2]
  rw [hs, ha _ (Table.set_self _ _ _), hn _ (Table.delete_self _ _)]
  exact ⟨rfl, rfl, Table.delete_self _ _, rfl, by decide⟩

theorem tcp_handshake_emits_once_witness :
    (processTCPConnection false emptyTable ⟨clientIP, serverIP⟩
      (tcpSegment 5000 443 true false)).2 = [] ∧
    (processTCPConnection false
      (processTCPConnection false emptyTable ⟨clientIP, serverIP⟩
        (tcpSegment 5000 443 true false)).1
      ⟨clientIP, serverIP⟩ (tcpSegment 5000 443 false true)).2 =
      [emit false ((tcpFlow ⟨clientIP, serverIP⟩ (tcpSegment 5000 443 true false)).record
        "TCP")] :=
  have h := tcp_handshake_emits_once false emptyTable ⟨clientIP, serverIP⟩
    (tcpSegment 5000 443 true false) (tcpSegment 5000 443 false true)
    (by decide) (by decide) (by decide)
  ⟨h.1, h.2.1⟩

/-- C4: a failing input.  With every flag off and the table empty, in the
stream TCP initiation, UDP of one flow the UDP packet emits nothing, yet the
stream without its TCP packet emits the UDP record; and in the stream UDP,
TCP completion of one flow the TCP packet emits a record, yet the stream
without its UDP packet emits nothing. -/
theorem tcp_and_udp_share_entries :
    runOn textFlags Packet.isUDP emptyTable
        [tcpPacket clientIP serverIP 5000 53 true false, udpPacket clientIP serverIP 5000 53] = [] ∧
    ((run textFlags emptyTable
        ([tcpPacket clientIP serverIP 5000 53 true false,
          udpPacket clientIP serverIP 5000 53].filter fun p => !p.isTCP)).2.map
        fun e => e.conn) = [⟨"10.0.0.1", 5000, "93.184.216.34", 53, "UDP"⟩] ∧
    ((runOn textFlags Packet.isTCP emptyTable
        [udpPacket clientIP serverIP 5000 53,
          tcpPacket clientIP serverIP 5000 53 false true]).map fun e => e.conn) =
      [⟨"10.0.0.1", 5000, "93.184.216.34", 53, "UDP"⟩] ∧
    (run textFlags emptyTable
        ([udpPacket clientIP serverIP 5000 53,
          tcpPacket clientIP serverIP 5000 53 false true].filter fun p => !p.isUDP)).2 = [] := by
  decide

/-! ## Frame properties -/

theorem processPacket_no_flow (fl : Flags) (t : Table) {p : Packet} (h : p.flow = none) :
    processPacket fl t p = (t, []) := by
  obtain ⟨ipv4, tcpL, udpL⟩ := p
  cases ipv4 with
  | none => rfl
  | some ip =>
    cases tcpL with
    | some tcp => simp [Packet.flow] at h
    | none =>
      cases udpL with
      | some udp => simp [Packet.flow] at h
      | none => simp [processPacket]

/-- What a packet of flow `K` prints, and the entry it leaves under the key of
`K`, depend on the table only through the entry under the key of `K`. -/
theorem processPacket_congr (fl : Flags) {t1 t2 : Table} {p : Packet} {K : Flow}
    (hf : p.flow = some K) (h : t1 K.key = t2 K.key) :
    (processPacket fl t1 p).2 = (processPacket fl t2 p).2 ∧
      (processPacket fl t1 p).1 K.key = (processPacket fl t2 p).1 K.key := by
  obtain ⟨ipv4, tcpL, udpL⟩ := p
  cases ipv4 with
  | none => simp [Packet.flow] at hf
  | some ip =>
    by_cases hd : addressFilterDrops fl.excludePublic ip = true
    · simp only [processPacket, hd, if_true]; simpa using h
    · cases tcpL with
      | some tcp =>
        simp only [Packet.flow, Option.some.injEq] at hf
        subst hf
        simp only [Flow.key, tcpFlow] at h ⊢
        simp only [processPacket, hd, processTCPConnection]
        by_cases hs : (tcp.SYN && !tcp.ACK) = true
        · simp [hs]
        · by_cases ha : (tcp.ACK && !tcp.SYN && !tcp.FIN && !tcp.RST) = true
          · simp only [hs, ha, if_true, h]
            cases t2 (connKey ip.SrcIP tcp.SrcPort ip.DstIP tcp.DstPort) <;> simp [h]
          · simp only [hs, ha]; simpa using h
      | none =>
        cases udpL with
        | none => simp [Packet.flow] at hf
        | some udp =>
          simp only [Packet.flow, Option.some.injEq] at hf
          subst hf
          simp only [Flow.key, udpFlow] at h ⊢
          by_cases hu : fl.excludeUDP = true
          · simp only [processPacket, hd, hu]; simpa using h
          · simp only [processPacket, hd, hu, processUDPConnection, h]
            cases t2 (connKey ip.SrcIP udp.SrcPort ip.DstIP udp.DstPort) <;> simp [h]

theorem Step.emission_record {fl : Flags} {t : Table} {p : Packet}
    {r : Table × List Emission} (h : Step fl t p r) (ht : Coherent t) {K : Flow}
    (hf : p.flow = some K) {e : Emission} (he : e ∈ r.2) :
    e.conn = K.record "TCP" ∨ e.conn = K.record "UDP" := by
  cases h with
  | idle => simp at he
  | syn L _ _ _ => simp at he
  | ack L conn hf2 _ _ hk =>
    rw [hf] at hf2; cases hf2
    simp only [List.mem_singleton] at he
    subst he
    rw [emit_conn]
    exact ht.at_key hk
  | udp L hf2 _ _ _ _ =>
    rw [hf] at hf2; cases hf2
    simp only [List.mem_singleton] at he
    subst he
    rw [emit_conn]
    exact Or.inr rfl

/-- C5: on every table a packet of flow K leaves the entry of every key other
than the key of K unchanged, and on every table reached from the empty table
the records it emits have exactly the addresses and ports of K; a packet of
the reverse flow, when that differs from K, leaves the entry of K unchanged,
emits no record with the addresses and ports of K, and does not change what a
following packet of K emits. -/
theorem processPacket_touches_only_own_flow (fl : Flags) (t : Table) (pre : List Packet)
    (p : Packet) (K : Flow) (hf : p.flow = some K) :
    (∀ k : String, k ≠ K.key → (processPacket fl t p).1 k = t k) ∧
    (∀ L : Flow, L ≠ K → (processPacket fl t p).1 L.key = t L.key) ∧
    (∀ e ∈ (processPacket fl (run fl emptyTable pre).1 p).2,
      e.conn.SrcIP = K.src.String ∧ e.conn.SrcPort = K.srcPort ∧
        e.conn.DstIP = K.dst.String ∧ e.conn.DstPort = K.dstPort) ∧
    (∀ q : Packet, q.flow = some ⟨K.dst, K.dstPort, K.src, K.srcPort⟩ →
      (⟨K.dst, K.dstPort, K.src, K.srcPort⟩ : Flow) ≠ K →
      (processPacket fl t q).1 K.key = t K.key ∧
      (∀ e ∈ (processPacket fl (run fl emptyTable pre).1 q).2,
        ¬(e.conn.SrcIP = K.src.String ∧ e.conn.SrcPort = K.srcPort ∧
          e.conn.DstIP = K.dst.String ∧ e.conn.DstPort = K.dstPort)) ∧
      (processPacket fl (processPacket fl t q).1 p).2 = (processPacket fl t p).2) := by
  have ht : Coherent (run fl emptyTable pre).1 := run_coherent fl pre _ coherent_empty
  have hframe : ∀ (r : Packet) (R : Flow), r.flow = some R → ∀ L : Flow, L ≠ R →
      (processPacket fl t r).1 L.key = t L.key := by
    intro r R hr L hL
    refine (processPacket_step fl t r).frame L.key ?_
    intro M hM heq
    rw [hr] at hM; cases hM
    exact hL (Flow.key_injective heq)
  refine ⟨?_, hframe p K hf, ?_, ?_⟩
  · intro k hk
    refine (processPacket_step fl t p).frame k ?_
    intro L hL
    rw [hf] at hL; cases hL
    exact hk
  · intro e he
    rcases (processPacket_step fl _ p).emission_record ht hf he with h | h <;>
      simp [h, Flow.record]
  · intro q hq hne
    have hK : (processPacket fl t q).1 K.key = t K.key := hframe q _ hq K (Ne.symm hne)
    refine ⟨hK, ?_, (processPacket_congr fl hf hK).1⟩
    intro e he hc
    apply hne
    have := (processPacket_step fl _ q).emission_record ht hq he
    obtain ⟨c1, c2, c3, c4⟩ := hc
    obtain ⟨ks, kp, kd, kq⟩ := K
    simp only [Flow.mk.injEq]
    simp only at c1 c2 c3 c4
    rcases this with h | h <;>
      · simp only [h, Flow.record] at c1 c2 c3 c4
        exact ⟨IP.String_injective c1, c2, IP.String_injective c3, c4⟩

theorem processPacket_touches_only_own_flow_witness :
    (processPacket textFlags emptyTable (tcpPacket clientIP serverIP 5000 443 true false)).1
        (Flow.key ⟨serverIP, 443, clientIP, 5000⟩) =
      emptyTable (Flow.key ⟨serverIP, 443, clientIP, 5000⟩) :=
  (processPacket_touches_only_own_flow textFlags emptyTable []
    (tcpPacket clientIP serverIP 5000 443 true false) ⟨clientIP, 5000, serverIP, 443⟩
    (by decide)).2.1 ⟨serverIP, 443, clientIP, 5000⟩ (by decide)

/-! ## The address filter in `processPacket` -/

theorem processPacket_dropped (fl : Flags) (t : Table) {p : Packet} {ip : IPv4}
    (hip : p.ipv4 = some ip) (hd : addressFilterDrops fl.excludePublic ip = true) :
    processPacket fl t p = (t, []) := by
  obtain ⟨ipv4, tcpL, udpL⟩ := p
  simp only at hip
  subst hip
  simp [processPacket, hd]

theorem Flow.record_bothPrivate {K : Flow} (proto : String) (h : K.bothPrivate = true) :
    (K.record proto).bothPrivate := by
  simp only [Flow.bothPrivate, Bool.and_eq_true] at h
  exact ⟨K.src, K.dst, rfl, rfl, h.1, h.2⟩

theorem Flow.bothPrivate_of_record {K : Flow} {proto : String}
    (h : (K.record proto).bothPrivate) : K.bothPrivate = true := by
  obtain ⟨s, d, h1, h2, h3, h4⟩ := h
  simp only [Flow.record] at h1 h2
  rw [← IP.String_injective h1] at h3
  rw [← IP.String_injective h2] at h4
  simp [Flow.bothPrivate, h3, h4]

theorem Step.privateOnly {fl : Flags} {t : Table} {p : Packet} {r : Table × List Emission}
    (h : Step fl t p r) (hx : fl.excludePublic = true) (ht : PrivateOnly t) :
    PrivateOnly r.1 := by
  have hset : ∀ (K : Flow) (proto : String), K.bothPrivate = true →
      PrivateOnly (t.set K.key (K.record proto)) := by
    intro K proto hK k c hk
    by_cases hkk : k = K.key
    · subst hkk
      rw [Table.set_self] at hk
      cases hk
      exact Flow.record_bothPrivate proto hK
    · rw [Table.set_other _ _ hkk] at hk
      exact ht k c hk
  cases h with
  | idle => exact ht
  | syn K _ _ hp => exact hset K _ (hp hx)
  | ack K conn _ _ _ _ =>
    intro k c hk
    by_cases hkk : k = K.key
    · subst hkk; simp at hk
    · have hk2 : t.delete K.key k = some c := hk
      rw [Table.delete_other _ hkk] at hk2
      exact ht k c hk2
  | udp K _ _ hp _ _ => exact hset K _ (hp hx)

theorem run_privateOnly (fl : Flags) (hx : fl.excludePublic = true) :
    ∀ (ps : List Packet) (t : Table), PrivateOnly t → PrivateOnly (run fl t ps).1
  | [], t, h => h
  | p :: ps, t, h => by
    rw [run_cons]
    exact run_privateOnly fl hx ps _ ((processPacket_step fl t p).privateOnly hx h)

/-- C7: with exclude-public on, a packet whose source or destination address
is not private leaves every table unchanged and emits nothing, so every
record in a table reached from the empty table has two private addresses; a
packet from 10.0.0.5 to 8.8.8.8, and one back, is such a packet. -/
theorem public_packet_is_dropped (fl : Flags) (hx : fl.excludePublic = true) :
    (∀ (t : Table) (p : Packet) (ip : IPv4), p.ipv4 = some ip →
      (isPrivateIP ip.SrcIP = false ∨ isPrivateIP ip.DstIP = false) →
      processPacket fl t p = (t, [])) ∧
    (∀ (ps : List Packet) (k : String) (c : Connection),
      (run fl emptyTable ps).1 k = some c →
      ∃ s d : IP, c.SrcIP = s.String ∧ c.DstIP = d.String ∧ isPrivateIP s = true ∧
        isPrivateIP d = true) ∧
    (∀ t : Table,
      processPacket fl t (tcpPacket ⟨10, 0, 0, 5⟩ ⟨8, 8, 8, 8⟩ 40000 53 true false) = (t, []) ∧
      processPacket fl t (udpPacket ⟨8, 8, 8, 8⟩ ⟨10, 0, 0, 5⟩ 53 40000) = (t, [])) := by
  have h1 : ∀ (t : Table) (p : Packet) (ip : IPv4), p.ipv4 = some ip →
      (isPrivateIP ip.SrcIP = false ∨ isPrivateIP ip.DstIP = false) →
      processPacket fl t p = (t, []) := by
    intro t p ip hip hpub
    refine processPacket_dropped fl t hip ?_
    rcases hpub with h | h <;> simp [addressFilterDrops, hx, h]
  refine ⟨h1, ?_, ?_⟩
  · intro ps k c hk
    exact run_privateOnly fl hx ps emptyTable (by intro k c h; simp [emptyTable] at h) k c hk
  · intro t
    exact ⟨h1 t _ _ rfl (Or.inr (by decide)), h1 t _ _ rfl (Or.inl (by decide))⟩

theorem public_packet_is_dropped_witness :
    processPacket privateOnlyFlags emptyTable
        (tcpPacket ⟨10, 0, 0, 5⟩ ⟨8, 8, 8, 8⟩ 40000 53 true false) = (emptyTable, []) :=
  (public_packet_is_dropped privateOnlyFlags rfl).1 emptyTable _ ⟨⟨10, 0, 0, 5⟩, ⟨8, 8, 8, 8⟩⟩
    rfl (Or.inr (by decide))

/-! ## Runs with and without exclude-public -/

theorem Packet.bothPrivate_of_flow {p : Packet} {K : Flow} (hf : p.flow = some K) :
    p.bothPrivate = K.bothPrivate := by
  obtain ⟨ipv4, tcpL, udpL⟩ := p
  cases ipv4 with
  | none => simp [Packet.flow] at hf
  | some ip =>
    cases tcpL with
    | some tcp =>
      simp only [Packet.flow, Option.some.injEq] at hf
      subst hf; rfl
    | none =>
      cases udpL with
      | none => simp [Packet.flow] at hf
      | some udp =>
        simp only [Packet.flow, Option.some.injEq] at hf
        subst hf; rfl

theorem processPacket_private (u g : Bool) (t : Table) {p : Packet}
    (h : p.bothPrivate = true) :
    processPacket ⟨true, u, g⟩ t p = processPacket ⟨false, u, g⟩ t p := by
  obtain ⟨ipv4, tcpL, udpL⟩ := p
  cases ipv4 with
  | none => rfl
  | some ip =>
    simp only [Packet.bothPrivate, Bool.and_eq_true] at h
    simp [processPacket, addressFilterDrops, h.1, h.2]

theorem processPacket_public (u g : Bool) (t : Table) {p : Packet}
    (h : p.bothPrivate = false) : processPacket ⟨true, u, g⟩ t p = (t, []) := by
  obtain ⟨ipv4, tcpL, udpL⟩ := p
  cases ipv4 with
  | none => rfl
  | some ip =>
    refine processPacket_dropped _ t rfl ?_
    simp only [Packet.bothPrivate, Bool.and_eq_false_iff] at h
    rcases h with h | h <;> simp [addressFilterDrops, h]

/-- The tables of the two runs hold the same entry for every private flow. -/
theorem step_agree (u g : Bool) {t1 t2 : Table} (p : Packet) (ht : Coherent t2)
    (hag : ∀ K : Flow, K.bothPrivate = true → t1 K.key = t2 K.key) :
    (processPacket ⟨true, u, g⟩ t1 p).2 =
        (if p.bothPrivate = true then (processPacket ⟨false, u, g⟩ t2 p).2 else []) ∧
      (∀ e ∈ (processPacket ⟨false, u, g⟩ t2 p).2,
        (e.conn.bothPrivate ↔ p.bothPrivate = true)) ∧
      (∀ K : Flow, K.bothPrivate = true →
        (processPacket ⟨true, u, g⟩ t1 p).1 K.key =
          (processPacket ⟨false, u, g⟩ t2 p).1 K.key) := by
  have hs := processPacket_step ⟨false, u, g⟩ t2 p
  cases hf : p.flow with
  | none =>
    rw [processPacket_no_flow _ t1 hf, processPacket_no_flow _ t2 hf]
    exact ⟨by simp, by simp, hag⟩
  | some L =>
    have hrec : ∀ e ∈ (processPacket ⟨false, u, g⟩ t2 p).2,
        (e.conn.bothPrivate ↔ p.bothPrivate = true) := by
      intro e he
      rw [Packet.bothPrivate_of_flow hf]
      rcases hs.emission_record ht hf he with h | h <;> rw [h]
      · exact ⟨Flow.bothPrivate_of_record, Flow.record_bothPrivate _⟩
      · exact ⟨Flow.bothPrivate_of_record, Flow.record_bothPrivate _⟩
    have hother : ∀ K : Flow, K ≠ L →
        (processPacket ⟨false, u, g⟩ t2 p).1 K.key = t2 K.key := by
      intro K hK
      refine hs.frame K.key ?_
      intro M hM heq
      rw [hf] at hM; cases hM
      exact hK (Flow.key_injective heq)
    by_cases hp : p.bothPrivate = true
    · have hL : L.bothPrivate = true := by rw [← Packet.bothPrivate_of_flow hf]; exact hp
      have hc := processPacket_congr ⟨false, u, g⟩ hf (hag L hL)
      rw [processPacket_private u g t1 hp]
      refine ⟨by simp [hp, hc.1], hrec, ?_⟩
      intro K hK
      by_cases hKL : K = L
      · subst hKL; exact hc.2
      · rw [hother K hKL]
        have := (processPacket_step ⟨false, u, g⟩ t1 p).frame K.key (by
          intro M hM heq
          rw [hf] at hM; cases hM
          exact hKL (Flow.key_injective heq))
        rw [this]; exact hag K hK
    · have hp2 : p.bothPrivate = false := by simpa using hp
      rw [processPacket_public u g t1 hp2]
      refine ⟨by simp [hp2], hrec, ?_⟩
      intro K hK
      have hKL : K ≠ L := by
        intro h; subst h
        rw [Packet.bothPrivate_of_flow hf, hK] at hp2
        cases hp2
      rw [hother K hKL]; exact hag K hK

theorem run_agree (u g : Bool) : ∀ (ps : List Packet) (t1 t2 : Table), Coherent t2 →
    (∀ K : Flow, K.bothPrivate = true → t1 K.key = t2 K.key) →
    ∀ K : Flow, K.bothPrivate = true →
      (run ⟨true, u, g⟩ t1 ps).1 K.key = (run ⟨false, u, g⟩ t2 ps).1 K.key
  | [], _, _, _, hag => hag
  | p :: ps, t1, t2, ht, hag => by
    rw [run_cons, run_cons]
    exact run_agree u g ps _ _ ((processPacket_step _ t2 p).coherent ht)
      (step_agree u g p ht hag).2.2

theorem run_filter (u g : Bool) : ∀ (ps : List Packet) (t1 t2 : Table), Coherent t2 →
    (∀ K : Flow, K.bothPrivate = true → t1 K.key = t2 K.key) →
    (run ⟨true, u, g⟩ t1 ps).2 =
      (run ⟨false, u, g⟩ t2 ps).2.filter
        (fun e => @decide e.conn.bothPrivate (Classical.propDecidable _))
  | [], _, _, _, _ => by simp
  | p :: ps, t1, t2, ht, hag => by
    obtain ⟨h1, h2, h3⟩ := step_agree u g p ht hag
    have ih := run_filter u g ps _ _ ((processPacket_step _ t2 p).coherent ht) h3
    rw [run_cons, run_cons, List.filter_append]
    simp only
    rw [ih, h1]
    congr 1
    by_cases hp : p.bothPrivate = true
    · rw [if_pos hp]
      symm
      rw [List.filter_eq_self]
      intro e he
      simpa using (h2 e he).2 hp
    · rw [if_neg hp]
      symm
      rw [List.filter_eq_nil_iff]
      intro e he
      simpa using fun h => hp ((h2 e he).1 h)

/-- C6: for every stream from the empty table, with exclude-udp and
generate-csv held fixed, what is emitted with exclude-public on is what is
emitted with it off restricted to the records whose two addresses are private;
it is a subsequence of it, so every emission with the flag on is an emission
with the flag off; and packet by packet, a packet with two private addresses
emits the same with the flag on as with it off, every other packet emits
nothing with the flag on. -/
theorem exclude_public_filters_emissions (u g : Bool) (ps : List Packet) :
    (run ⟨true, u, g⟩ emptyTable ps).2 =
      (run ⟨false, u, g⟩ emptyTable ps).2.filter
        (fun e => @decide e.conn.bothPrivate (Classical.propDecidable _)) ∧
    List.Sublist (run ⟨true, u, g⟩ emptyTable ps).2 (run ⟨false, u, g⟩ emptyTable ps).2 ∧
    (∀ e ∈ (run ⟨true, u, g⟩ emptyTable ps).2, e ∈ (run ⟨false, u, g⟩ emptyTable ps).2) ∧
    (∀ pre p post, ps = pre ++ p :: post →
      (processPacket ⟨true, u, g⟩ (run ⟨true, u, g⟩ emptyTable pre).1 p).2 =
        (if p.bothPrivate = true then
          (processPacket ⟨false, u, g⟩ (run ⟨false, u, g⟩ emptyTable pre).1 p).2
        else [])) := by
  have hf := run_filter u g ps emptyTable emptyTable coherent_empty (fun _ _ => rfl)
  have hsub : List.Sublist (run ⟨true, u, g⟩ emptyTable ps).2
      (run ⟨false, u, g⟩ emptyTable ps).2 := by
    rw [hf]; exact List.filter_sublist _
  refine ⟨hf, hsub, fun e he => hsub.subset he, ?_⟩
  intro pre p post _
  exact (step_agree u g p (run_coherent _ pre _ coherent_empty)
    (run_agree u g pre emptyTable emptyTable coherent_empty (fun _ _ => rfl))).1

/-! ## `isPrivateIP` -/

theorem cidrMask32_values :
    cidrMask32 8 = [255, 0, 0, 0] ∧ cidrMask32 12 = [255, 240, 0, 0] ∧
      cidrMask32 16 = [255, 255, 0, 0] := by decide

theorem and_255_of_lt (n : Nat) (h : n < 256) : n &&& 255 = n := by
  have := Nat.and_pow_two_sub_one_eq_mod n 8
  simp only [Nat.reducePow, Nat.add_one_sub_one] at this
  rw [this, Nat.mod_eq_of_lt h]

theorem and_240_eq_16_iff (n : Nat) (h : n < 256) : n &&& 240 = 16 ↔ 16 ≤ n ∧ n ≤ 31 := by
  interval_cases n <;> decide

theorem isPrivateIP_iff (ip : IP) (h : ip.valid) :
    isPrivateIP ip = true ↔
      ip.b0 = 10 ∨ (ip.b0 = 172 ∧ 16 ≤ ip.b1 ∧ ip.b1 ≤ 31) ∨ (ip.b0 = 192 ∧ ip.b1 = 168) := by
  obtain ⟨a, b, c, d⟩ := ip
  obtain ⟨ha, hb, _, _⟩ := h
  simp only at ha hb
  have e1 : 10 &&& 255 = 10 := by decide
  have e2 : 172 &&& 255 = 172 := by decide
  have e3 : 192 &&& 255 = 192 := by decide
  have e4 : 168 &&& 255 = 168 := by decide
  have e5 : 16 &&& 240 = 16 := by decide
  have h240 := and_240_eq_16_iff b hb
  simp only [isPrivateIP, privateIPBlocks, IPNet.Contains, cidrMask32_values.1,
    cidrMask32_values.2.1, cidrMask32_values.2.2, IP.bytes, and_255_of_lt a ha,
    and_255_of_lt b hb, e1, e2, e3, e4, e5, List.any_cons, List.any_nil, List.zip_cons_cons,
    List.zip_nil_right, List.all_cons, List.all_nil, List.length_cons, List.length_nil,
    Nat.and_zero, beq_self_eq_true, Bool.and_true, Bool.true_and, Bool.or_false,
    Bool.or_eq_true, Bool.and_eq_true, beq_iff_eq, Nat.reduceAdd]
  constructor
  · rintro (h | ⟨h1, h2⟩ | ⟨h1, h2⟩)
    · exact Or.inl h.symm
    · exact Or.inr (Or.inl ⟨h1.symm, h240.1 h2.symm⟩)
    · exact Or.inr (Or.inr ⟨h1.symm, h2.symm⟩)
  · rintro (h | ⟨h1, h2⟩ | ⟨h1, h2⟩)
    · exact Or.inl h.symm
    · exact Or.inr (Or.inl ⟨h1.symm, (h240.2 h2).symm⟩)
    · exact Or.inr (Or.inr ⟨h1.symm, h2.symm⟩)
/-- C8: for addresses of four bytes, `isPrivateIP` holds exactly on the blocks
10.0.0.0/8, 172.16.0.0/12 and 192.168.0.0/16, and `processPacket` drops the
frames of an IPv4 layer on its addresses, that is, leaves the table unchanged
and emits nothing whatever the table and the other layers are, exactly when
exclude-public is on and the source or the destination address lies outside
the three blocks; in every other case the frame is handed to
`processTCPConnection` or `processUDPConnection` as the layers and exclude-udp
say. -/
theorem address_filter_drops_iff (fl : Flags) (ip : IPv4) (hs : ip.SrcIP.valid)
    (hd : ip.DstIP.valid) :
    (isPrivateIP ip.SrcIP = true ↔ ip.SrcIP.inPrivateBlocks) ∧
    (isPrivateIP ip.DstIP = true ↔ ip.DstIP.inPrivateBlocks) ∧
    (addressFilterDrops fl.excludePublic ip = true ↔
      fl.excludePublic = true ∧ (¬ip.SrcIP.inPrivateBlocks ∨ ¬ip.DstIP.inPrivateBlocks)) ∧
    (∀ (t : Table) (p : Packet), p.ipv4 = some ip →
      addressFilterDrops fl.excludePublic ip = true → processPacket fl t p = (t, [])) ∧
    ((∀ (t : Table) (p : Packet), p.ipv4 = some ip → processPacket fl t p = (t, [])) ↔
      fl.excludePublic = true ∧ (¬ip.SrcIP.inPrivateBlocks ∨ ¬ip.DstIP.inPrivateBlocks)) ∧
    (∀ (t : Table) (p : Packet), p.ipv4 = some ip →
      ¬(fl.excludePublic = true ∧
        (¬ip.SrcIP.inPrivateBlocks ∨ ¬ip.DstIP.inPrivateBlocks)) →
      processPacket fl t p =
        match p.tcp with
        | some tcp => processTCPConnection fl.generateCSV t ip tcp
        | none =>
          if fl.excludeUDP = true then (t, [])
          else
            match p.udp with
            | some udp => processUDPConnection fl.generateCSV t ip udp
            | none => (t, [])) := by
  have h1 : isPrivateIP ip.SrcIP = true ↔ ip.SrcIP.inPrivateBlocks := isPrivateIP_iff _ hs
  have h2 : isPrivateIP ip.DstIP = true ↔ ip.DstIP.inPrivateBlocks := isPrivateIP_iff _ hd
  have h3 : addressFilterDrops fl.excludePublic ip = true ↔
      fl.excludePublic = true ∧ (¬ip.SrcIP.inPrivateBlocks ∨ ¬ip.DstIP.inPrivateBlocks) := by
    rw [← h1, ← h2]
    simp [addressFilterDrops]
  have h4 : ∀ (t : Table) (p : Packet), p.ipv4 = some ip →
      addressFilterDrops fl.excludePublic ip = true → processPacket fl t p = (t, []) :=
    fun t p hp hdrop => processPacket_dropped fl t hp hdrop
  have h6 : ∀ (t : Table) (p : Packet), p.ipv4 = some ip →
      ¬addressFilterDrops fl.excludePublic ip = true →
      processPacket fl t p =
        match p.tcp with
        | some tcp => processTCPConnection fl.generateCSV t ip tcp
        | none =>
          if fl.excludeUDP = true then (t, [])
          else
            match p.udp with
            | some udp => processUDPConnection fl.generateCSV t ip udp
            | none => (t, []) := by
    intro t p hp hkeep
    obtain ⟨ipv4, tcpL, udpL⟩ := p
    simp only at hp
    subst hp
    cases tcpL with
    | some tcp => simp [processPacket, hkeep]
    | none =>
      cases hu : fl.excludeUDP <;> cases udpL <;> simp [processPacket, hkeep, hu]
  refine ⟨h1, h2, h3, h4, ⟨?_, fun h t p hp => h4 t p hp (h3.2 h)⟩,
    fun t p hp hkeep => h6 t p hp (fun hdrop => hkeep (h3.1 hdrop))⟩
  intro hall
  by_contra hkeep
  have hk : ¬addressFilterDrops fl.excludePublic ip = true := fun hdrop => hkeep (h3.1 hdrop)
  have e1 := hall emptyTable ⟨some ip, some (tcpSegment 0 0 true false), none⟩ rfl
  rw [h6 _ _ rfl hk] at e1
  have e2 := congrFun (congrArg Prod.fst e1) (connKey ip.SrcIP 0 ip.DstIP 0)
  simp [processTCPConnection, tcpSegment, Table.set, emptyTable] at e2

theorem address_filter_drops_iff_witness :
    (∀ (t : Table) (p : Packet), p.ipv4 = some ⟨⟨10, 0, 0, 5⟩, ⟨8, 8, 8, 8⟩⟩ →
      processPacket privateOnlyFlags t p = (t, [])) ↔
      privateOnlyFlags.excludePublic = true ∧
        (¬IP.inPrivateBlocks ⟨10, 0, 0, 5⟩ ∨ ¬IP.inPrivateBlocks ⟨8, 8, 8, 8⟩) :=
  (address_filter_drops_iff privateOnlyFlags ⟨⟨10, 0, 0, 5⟩, ⟨8, 8, 8, 8⟩⟩ (by decide)
    (by decide)).2.2.2.2.1

/-! ## The printers -/

theorem Step.emission_emit {fl : Flags} {t : Table} {p : Packet} {r : Table × List Emission}
    (h : Step fl t p r) {e : Emission} (he : e ∈ r.2) : e = emit fl.generateCSV e.conn := by
  cases h with
  | idle => simp at he
  | syn K _ _ _ => simp at he
  | ack K conn _ _ _ _ =>
    simp only [List.mem_singleton] at he
    subst he; rw [emit_conn]
  | udp K _ _ _ _ _ =>
    simp only [List.mem_singleton] at he
    subst he; rw [emit_conn]

theorem run_emission_emit (fl : Flags) : ∀ (ps : List Packet) (t : Table),
    ∀ e ∈ (run fl t ps).2, e = emit fl.generateCSV e.conn
  | [], _, e, he => by simp at he
  | p :: ps, t, e, he => by
    rw [run_cons] at he
    rcases List.mem_append.1 he with h | h
    · exact (processPacket_step fl t p).emission_emit h
    · exact run_emission_emit fl ps _ e h

/-- C9: `printConnection` writes the line
"Initiated Connection - Src: A:P -> Dst: B:Q, Protocol: R" and a newline, the
ports as decimal numbers; with generate-csv off every emission of a run is
written by it. -/
theorem printConnection_format (c : Connection) (fl : Flags) (t : Table) (ps : List Packet)
    (hcsv : fl.generateCSV = false) :
    printConnection c =
      "Initiated Connection - Src: " ++ c.SrcIP ++ ":" ++ decimalString c.SrcPort ++
        " -> Dst: " ++ c.DstIP ++ ":" ++ decimalString c.DstPort ++ ", Protocol: " ++
        c.Protocol ++ "\n" ∧
    (∀ n : Nat, (∀ ch ∈ (decimalString n).data, ch.isDigit = true) ∧
      decimalValue (decimalString n).data = n) ∧
    (∀ e ∈ (run fl t ps).2, e.text = printConnection e.conn) := by
  refine ⟨?_, fun n => ⟨formatDecimal_isDigit n, formatDecimal_value n⟩, ?_⟩
  · apply String.ext
    simp [printConnection, sprintf, sprintfAux, decimalString, String.data_append]
  · intro e he
    have := run_emission_emit fl ps t e he
    rw [hcsv] at this
    rw [this]; rfl

theorem printConnection_format_witness :
    printConnection ⟨"10.0.0.1", 5000, "93.184.216.34", 443, "TCP"⟩ =
      "Initiated Connection - Src: " ++ "10.0.0.1" ++ ":" ++ decimalString 5000 ++
        " -> Dst: " ++ "93.184.216.34" ++ ":" ++ decimalString 443 ++ ", Protocol: " ++
        "TCP" ++ "\n" :=
  (printConnection_format ⟨"10.0.0.1", 5000, "93.184.216.34", 443, "TCP"⟩ textFlags
    emptyTable [] rfl).1
theorem formatDecimal_count_comma (n : Nat) : (formatDecimal n).count ',' = 0 := by
  rw [List.count_eq_zero]
  intro h
  have := formatDecimal_isDigit n _ h
  exact absurd this (by decide)

theorem IP.String_count_comma (ip : IP) : ip.String.data.count ',' = 0 := by
  rw [IP.String_data]
  simp [List.count_append, List.count_cons, formatDecimal_count_comma]

/-- C10: `printCSVConnection` writes the line "A,B,R:Q" and a newline; the
source port does not occur in it, and for a record the handlers build the
line has exactly two commas, so three fields; with generate-csv on every
emission of a run is written by it.  Two equal UDP packets 10.0.0.1 ->
93.184.216.34 port 53 from the empty table print the one line
"10.0.0.1,93.184.216.34,UDP:53". -/
theorem printCSVConnection_format (c : Connection) (fl : Flags) (t : Table)
    (ps : List Packet) (hcsv : fl.generateCSV = true) :
    printCSVConnection c =
      c.SrcIP ++ "," ++ c.DstIP ++ "," ++ c.Protocol ++ ":" ++ decimalString c.DstPort ++
        "\n" ∧
    (∀ srcPort : Nat, printCSVConnection { c with SrcPort := srcPort } = printCSVConnection c) ∧
    (∀ K : Flow, (printCSVConnection (K.record "TCP")).data.count ',' = 2 ∧
      (printCSVConnection (K.record "UDP")).data.count ',' = 2) ∧
    (∀ e ∈ (run fl t ps).2, e.text = printCSVConnection e.conn) ∧
    ((run csvFlags emptyTable
        [udpPacket clientIP serverIP 40000 53, udpPacket clientIP serverIP 40000 53]).2.map
        fun e => e.text) = ["10.0.0.1,93.184.216.34,UDP:53\n"] := by
  have hfmt : ∀ c : Connection, printCSVConnection c =
      c.SrcIP ++ "," ++ c.DstIP ++ "," ++ c.Protocol ++ ":" ++ decimalString c.DstPort ++
        "\n" := by
    intro c
    apply String.ext
    simp [printCSVConnection, sprintf, sprintfAux, decimalString, String.data_append]
  refine ⟨hfmt c, fun _ => rfl, ?_, ?_, by decide⟩
  · intro K
    constructor <;>
      · rw [hfmt]
        simp [Flow.record, decimalString, String.data_append, List.count_append,
          List.count_cons, IP.String_count_comma, formatDecimal_count_comma]
  · intro e he
    have := run_emission_emit fl ps t e he
    rw [hcsv] at this
    rw [this]; rfl

theorem printCSVConnection_format_witness :
    printCSVConnection ⟨"10.0.0.1", 40000, "93.184.216.34", 53, "UDP"⟩ =
      "10.0.0.1" ++ "," ++ "93.184.216.34" ++ "," ++ "UDP" ++ ":" ++ decimalString 53 ++
        "\n" :=
  (printCSVConnection_format ⟨"10.0.0.1", 40000, "93.184.216.34", 53, "UDP"⟩ csvFlags
    emptyTable [] rfl).1

/-! ## Frames the handlers ignore -/

theorem processPacket_udp_excluded (fl : Flags) (t : Table) {p : Packet}
    (hx : fl.excludeUDP = true) (hp : p.tcp = none) : processPacket fl t p = (t, []) := by
  obtain ⟨ipv4, tcpL, udpL⟩ := p
  simp only at hp
  subst hp
  cases ipv4 with
  | none => rfl
  | some ip => simp [processPacket, hx]

theorem processPacket_tcp_any_udp_flag (e u1 u2 g : Bool) (t : Table) {p : Packet}
    (hp : p.tcp.isSome = true) :
    processPacket ⟨e, u1, g⟩ t p = processPacket ⟨e, u2, g⟩ t p := by
  obtain ⟨ipv4, tcpL, udpL⟩ := p
  cases tcpL with
  | none => simp at hp
  | some tcp =>
    cases ipv4 with
    | none => rfl
    | some ip => simp [processPacket]

/-- C11: with exclude-udp on, a frame with an IPv4 and a UDP layer and no TCP
layer leaves every table unchanged and emits nothing, and a frame with a TCP
layer is processed exactly as with exclude-udp off. -/
theorem exclude_udp_drops_udp_only (fl : Flags) (t : Table) (p : Packet)
    (hx : fl.excludeUDP = true) :
    (p.isUDP = true → processPacket fl t p = (t, [])) ∧
    (p.tcp.isSome = true →
      processPacket fl t p = processPacket { fl with excludeUDP := false } t p) := by
  constructor
  · intro hp
    refine processPacket_udp_excluded fl t hx ?_
    simp only [Packet.isUDP, Bool.and_eq_true, Option.isNone_iff_eq_none] at hp
    exact hp.1.2
  · intro hp
    obtain ⟨e, u, g⟩ := fl
    exact processPacket_tcp_any_udp_flag e u false g t hp

theorem exclude_udp_drops_udp_only_witness :
    processPacket ⟨false, true, false⟩ emptyTable (udpPacket clientIP serverIP 40000 53) =
      (emptyTable, []) :=
  (exclude_udp_drops_udp_only ⟨false, true, false⟩ emptyTable
    (udpPacket clientIP serverIP 40000 53) rfl).1 (by decide)

/-- C12: a frame without an IPv4 layer, or with an IPv4 layer and neither a
TCP nor a UDP layer, is skipped: `processPacket` returns, with the table
unchanged and nothing emitted. -/
theorem unrecognised_frame_is_skipped (fl : Flags) (t : Table) (p : Packet)
    (hp : p.ipv4 = none ∨ (p.tcp = none ∧ p.udp = none)) : processPacket fl t p = (t, []) := by
  obtain ⟨ipv4, tcpL, udpL⟩ := p
  simp only at hp
  rcases hp with h | ⟨h1, h2⟩
  · subst h; rfl
  · subst h1; subst h2
    cases ipv4 with
    | none => rfl
    | some ip => simp [processPacket]

theorem unrecognised_frame_is_skipped_witness :
    processPacket textFlags emptyTable ⟨none, some (tcpSegment 5000 443 true false), none⟩ =
      (emptyTable, []) :=
  unrecognised_frame_is_skipped textFlags emptyTable
    ⟨none, some (tcpSegment 5000 443 true false), none⟩ (Or.inl rfl)

/-! ## Flag combinations in `processTCPConnection` -/

/-- C13, as stated, fails: from a table with a pending entry for
10.0.0.1:5000 -> 93.184.216.34:443 a packet of that flow with ACK and PSH set,
and one with ACK and URG set, emits the record and removes the entry. -/
theorem ack_with_psh_or_urg_completes :
    ((processTCPConnection false
        (processTCPConnection false emptyTable ⟨clientIP, serverIP⟩
          (tcpSegment 5000 443 true false)).1
        ⟨clientIP, serverIP⟩ { tcpSegment 5000 443 false true with PSH := true }).2.map
        fun e => e.conn) = [⟨"10.0.0.1", 5000, "93.184.216.34", 443, "TCP"⟩] ∧
    (processTCPConnection false
        (processTCPConnection false emptyTable ⟨clientIP, serverIP⟩
          (tcpSegment 5000 443 true false)).1
        ⟨clientIP, serverIP⟩ { tcpSegment 5000 443 false true with PSH := true }).1
        "10.0.0.1:5000 -> 93.184.216.34:443" = none ∧
    ((processTCPConnection false
        (processTCPConnection false emptyTable ⟨clientIP, serverIP⟩
          (tcpSegment 5000 443 true false)).1
        ⟨clientIP, serverIP⟩ { tcpSegment 5000 443 false true with URG := true }).2.map
        fun e => e.conn) = [⟨"10.0.0.1", 5000, "93.184.216.34", 443, "TCP"⟩] := by
  decide

/-- C13, amended: a TCP packet that is neither an initiation packet (SYN set,
ACK clear) nor a completion packet (ACK set; SYN, FIN and RST clear) leaves
every table unchanged and emits nothing; this covers the packets without SYN
and without ACK (pure FIN, pure RST), those with SYN and ACK, and those with
ACK together with FIN or RST, whatever the other flags are. -/
theorem unmatched_flags_are_ignored (g : Bool) (t : Table) (ip : IPv4) (tcp : TCP)
    (hsyn : ¬(tcp.SYN = true ∧ tcp.ACK = false))
    (hack : ¬(tcp.ACK = true ∧ tcp.SYN = false ∧ tcp.FIN = false ∧ tcp.RST = false)) :
    processTCPConnection g t ip tcp = (t, []) ∧
    (tcp.SYN = false ∧ tcp.ACK = false ∨ tcp.SYN = true ∧ tcp.ACK = true ∨
      tcp.ACK = true ∧ (tcp.FIN = true ∨ tcp.RST = true)) := by
  obtain ⟨sp, dp, fin, syn, rst, psh, ack, urg, ece, cwr, ns⟩ := tcp
  simp only at hsyn hack
  cases syn <;> cases ack <;> cases fin <;> cases rst <;>
    simp_all [processTCPConnection]

theorem unmatched_flags_are_ignored_witness :
    processTCPConnection false emptyTable ⟨clientIP, serverIP⟩ (tcpSegment 5000 443 true true) =
      (emptyTable, []) :=
  (unmatched_flags_are_ignored false emptyTable ⟨clientIP, serverIP⟩
    (tcpSegment 5000 443 true true) (by decide) (by decide)).1

/-- C14: a completion packet of a flow that has no entry leaves the whole
table unchanged and emits nothing. -/
theorem completion_without_entry_is_ignored (g : Bool) (t : Table) (ip : IPv4) (tcp : TCP)
    (hnone : t (tcpFlow ip tcp).key = none)
    (hack : tcp.ACK = true ∧ tcp.SYN = false ∧ tcp.FIN = false ∧ tcp.RST = false) :
    processTCPConnection g t ip tcp = (t, []) := by
  obtain ⟨h1, h2, h3, h4⟩ := hack
  simp only [Flow.key, tcpFlow] at hnone
  simp [processTCPConnection, h1, h2, h3, h4, hnone]

theorem completion_without_entry_is_ignored_witness :
    processTCPConnection false emptyTable ⟨clientIP, serverIP⟩
      (tcpSegment 5000 443 false true) = (emptyTable, []) :=
  completion_without_entry_is_ignored false emptyTable ⟨clientIP, serverIP⟩
    (tcpSegment 5000 443 false true) rfl (by decide)

/-! ## Repeated initiation, and the life of an entry -/

theorem Table.set_set (t : Table) (k : String) (v w : Connection) :
    (t.set k v).set k w = t.set k w := by
  funext k2
  by_cases h : k2 = k <;> simp [Table.set, h]

/-- C15: an initiation packet processed twice in a row leaves the same table
as processed once, neither call emits anything, and a completion packet of
the same flow that follows emits exactly one record, the record of the flow
tagged TCP. -/
theorem initiation_is_idempotent (g : Bool) (t : Table) (ip : IPv4) (syn ack : TCP)
    (hsyn : syn.SYN = true ∧ syn.ACK = false)
    (hack : ack.ACK = true ∧ ack.SYN = false ∧ ack.FIN = false ∧ ack.RST = false)
    (hports : ack.SrcPort = syn.SrcPort ∧ ack.DstPort = syn.DstPort) :
    (processTCPConnection g (processTCPConnection g t ip syn).1 ip syn).1 =
      (processTCPConnection g t ip syn).1 ∧
    (processTCPConnection g t ip syn).2 = [] ∧
    (processTCPConnection g (processTCPConnection g t ip syn).1 ip syn).2 = [] ∧
    (processTCPConnection g
      (processTCPConnection g (processTCPConnection g t ip syn).1 ip syn).1 ip ack).2 =
      [emit g ((tcpFlow ip syn).record "TCP")] := by
  obtain ⟨h1, h2⟩ := hsyn
  obtain ⟨h3, h4, h5, h6⟩ := hack
  obtain ⟨h7, h8⟩ := hports
  have hs : ∀ t2 : Table, processTCPConnection g t2 ip syn =
      (t2.set (tcpFlow ip syn).key ((tcpFlow ip syn).record "TCP"), []) := by
    intro t2
    simp [processTCPConnection, h1, h2, Flow.key, Flow.record, tcpFlow]
  have ha : ∀ t2 : Table, t2 (tcpFlow ip syn).key = some ((tcpFlow ip syn).record "TCP") →
      processTCPConnection g t2 ip ack =
        (t2.delete (tcpFlow ip syn).key, [emit g ((tcpFlow ip syn).record "TCP")]) := by
    intro t2 ht2
    simp only [Flow.key, tcpFlow] at ht2
    simp [processTCPConnection, h3, h4, h5, h6, h7, h8, Flow.key, tcpFlow, ht2]
  rw [hs t, hs _, Table.set_set, ha _ (Table.set_self _ _ _)]
  exact ⟨rfl, rfl, rfl, rfl⟩

theorem initiation_is_idempotent_witness :
    (processTCPConnection false
        (processTCPConnection false emptyTable ⟨clientIP, serverIP⟩
          (tcpSegment 5000 443 true false)).1
        ⟨clientIP, serverIP⟩ (tcpSegment 5000 443 true false)).1 =
      (processTCPConnection false emptyTable ⟨clientIP, serverIP⟩
        (tcpSegment 5000 443 true false)).1 :=
  (initiation_is_idempotent false emptyTable ⟨clientIP, serverIP⟩
    (tcpSegment 5000 443 true false) (tcpSegment 5000 443 false true)
    (by decide) (by decide) (by decide)).1

/-- C16: a failing input.  With every flag off and the table empty, after
the stream UDP, TCP completion of the flow 10.0.0.1:5000 -> 93.184.216.34:53
the table has no entry for the flow, although a UDP packet of the flow has
been processed; the UDP packet itself had left an entry. -/
theorem udp_entry_removed_by_tcp_completion :
    (udpPacket clientIP serverIP 5000 53).isUDP = true ∧
    (run textFlags emptyTable [udpPacket clientIP serverIP 5000 53]).1
        (Flow.key ⟨clientIP, 5000, serverIP, 53⟩) =
      some ⟨"10.0.0.1", 5000, "93.184.216.34", 53, "UDP"⟩ ∧
    (run textFlags emptyTable
        [udpPacket clientIP serverIP 5000 53,
          tcpPacket clientIP serverIP 5000 53 false true]).1
        (Flow.key ⟨clientIP, 5000, serverIP, 53⟩) = none := by
  decide

theorem processPacket_initiation_table (fl : Flags) (t : Table) {K : Flow} {p : Packet}
    (hx : fl.excludePublic = false) (h : isInitiation K p = true) :
    (processPacket fl t p).1 = t.set K.key (K.record "TCP") := by
  obtain ⟨ipv4, tcpL, udpL⟩ := p
  cases ipv4 with
  | none => simp [isInitiation] at h
  | some ip =>
    cases tcpL with
    | none => simp [isInitiation] at h
    | some tcp =>
      simp only [isInitiation, Bool.and_eq_true, decide_eq_true_eq] at h
      obtain ⟨hK, hs⟩ := h
      subst hK
      have hs2 : (tcp.SYN && !tcp.ACK) = true := by simpa using hs
      simp only [processPacket, addressFilterDrops, hx, Bool.false_and, Bool.false_eq_true,
        if_false, processTCPConnection, hs2, if_true]
      rfl

theorem processPacket_completion_table (fl : Flags) (t : Table) {K : Flow} {p : Packet}
    {c : Connection} (hx : fl.excludePublic = false) (h : isCompletion K p = true)
    (hk : t K.key = some c) : (processPacket fl t p).1 K.key = none := by
  obtain ⟨ipv4, tcpL, udpL⟩ := p
  cases ipv4 with
  | none => simp [isCompletion] at h
  | some ip =>
    cases tcpL with
    | none => simp [isCompletion] at h
    | some tcp =>
      simp only [isCompletion, Bool.and_eq_true, decide_eq_true_eq, Bool.not_eq_true'] at h
      obtain ⟨hK, ⟨⟨h1, h2⟩, h3⟩, h4⟩ := h
      subst hK
      simp only [Flow.key, tcpFlow] at hk ⊢
      simp [processPacket, addressFilterDrops, hx, processTCPConnection, h1, h2, h3, h4, hk]

theorem isCompletion_of_flow {K L : Flow} {p : Packet} (h : isCompletion L p = true)
    (hf : p.flow = some K) : isCompletion K p = true := by
  have := isCompletion_flow h
  rw [hf] at this
  cases this; exact h

theorem Step.keeps_entry {fl : Flags} {t : Table} {p : Packet} {r : Table × List Emission}
    (h : Step fl t p r) {K : Flow} (hp : t K.key = some (K.record "TCP"))
    (hc : isCompletion K p = false) : r.1 K.key = some (K.record "TCP") := by
  cases h with
  | idle => exact hp
  | syn L _ _ _ =>
    by_cases hLK : K = L
    · subst hLK; exact Table.set_self _ _ _
    · exact (Table.set_other _ _ (fun heq => hLK (Flow.key_injective heq))).trans hp
  | ack L conn _ hcomp _ _ =>
    by_cases hLK : K = L
    · subst hLK
      rw [hcomp] at hc
      cases hc
    · exact (Table.delete_other _ (fun heq => hLK (Flow.key_injective heq))).trans hp
  | udp L _ _ _ _ hnone =>
    by_cases hLK : K = L
    · subst hLK
      rw [hp] at hnone
      cases hnone
    · exact (Table.set_other _ _ (fun heq => hLK (Flow.key_injective heq))).trans hp

theorem step_tcp_entry (fl : Flags) (t : Table) (p : Packet) (K : Flow)
    (hx : fl.excludePublic = false) (ht : Coherent t) :
    (processPacket fl t p).1 K.key = some (K.record "TCP") ↔
      isInitiation K p = true ∨
        (t K.key = some (K.record "TCP") ∧ isCompletion K p = false) := by
  have hs := processPacket_step fl t p
  constructor
  · intro h
    rcases hs.pending ht h with hi | ⟨hp, _⟩
    · exact Or.inl hi
    · right
      refine ⟨hp, ?_⟩
      cases hc : isCompletion K p with
      | false => rfl
      | true =>
        rw [processPacket_completion_table fl t hx hc hp] at h
        cases h
  · rintro (hi | ⟨hp, hc⟩)
    · rw [processPacket_initiation_table fl t hx hi]
      exact Table.set_self _ _ _
    · exact hs.keeps_entry hp hc

theorem tcp_entry_iff_record {t : Table} (ht : Coherent t) (K : Flow) :
    (∃ c, t K.key = some c ∧ c.Protocol = "TCP") ↔ t K.key = some (K.record "TCP") := by
  constructor
  · rintro ⟨c, hc, hp⟩
    rcases ht.at_key hc with h | h
    · rw [hc, h]
    · rw [h] at hp
      simp only [Flow.record] at hp
      exact absurd hp (by decide)
  · intro h
    exact ⟨_, h, rfl⟩

theorem pending_split_snoc (K : Flow) (pre : List Packet) (r : Packet) :
    (∃ a q b, pre ++ [r] = a ++ q :: b ∧ isInitiation K q = true ∧
        (∀ x ∈ b, isInitiation K x = false) ∧ ∀ x ∈ b, isCompletion K x = false) ↔
      isInitiation K r = true ∨
        ((∃ a q b, pre = a ++ q :: b ∧ isInitiation K q = true ∧
            (∀ x ∈ b, isInitiation K x = false) ∧ ∀ x ∈ b, isCompletion K x = false) ∧
          isCompletion K r = false) := by
  constructor
  · rintro ⟨a, q, b, hsplit, hq, hbi, hbc⟩
    rcases List.eq_nil_or_concat b with hb | ⟨b2, x, hb⟩
    · subst hb
      have h2 : pre ++ [r] = a ++ [q] := hsplit
      have := List.append_inj' h2 rfl
      simp only [List.cons.injEq, and_true] at this
      rw [this.2]; exact Or.inl hq
    · subst hb
      have h2 : pre ++ [r] = (a ++ q :: b2) ++ [x] := by
        rw [hsplit]; simp
      have := List.append_inj' h2 rfl
      simp only [List.cons.injEq, and_true] at this
      obtain ⟨h3, h4⟩ := this
      subst h4
      right
      refine ⟨⟨a, q, b2, h3, hq, fun y hy => hbi y (by simp [hy]),
        fun y hy => hbc y (by simp [hy])⟩, hbc r (by simp)⟩
  · rintro (hi | ⟨⟨a, q, b, hsplit, hq, hbi, hbc⟩, hc⟩)
    · exact ⟨pre, r, [], rfl, hi, by simp, by simp⟩
    · cases hi : isInitiation K r with
      | true => exact ⟨pre, r, [], rfl, hi, by simp, by simp⟩
      | false =>
        refine ⟨a, q, b ++ [r], by simp [hsplit], hq, ?_, ?_⟩
        · intro y hy
          rcases List.mem_append.1 hy with h | h
          · exact hbi y h
          · simp only [List.mem_singleton] at h
            rw [h]; exact hi
        · intro y hy
          rcases List.mem_append.1 hy with h | h
          · exact hbc y h
          · simp only [List.mem_singleton] at h
            rw [h]; exact hc

/-- C17: with exclude-public off, after every stream processed from the empty
table (so after every prefix of a stream) the table holds a record tagged TCP
under the key of K exactly when the stream has an initiation packet of K and
no completion packet of K comes after the last initiation packet of K; the
record then is the record of K. -/
theorem tcp_entry_iff_initiation_pending (fl : Flags) (K : Flow) (pre : List Packet)
    (hx : fl.excludePublic = false) :
    ((∃ c, (run fl emptyTable pre).1 K.key = some c ∧ c.Protocol = "TCP") ↔
      ∃ a q b, pre = a ++ q :: b ∧ isInitiation K q = true ∧
        (∀ x ∈ b, isInitiation K x = false) ∧ ∀ x ∈ b, isCompletion K x = false) ∧
    ((∃ c, (run fl emptyTable pre).1 K.key = some c ∧ c.Protocol = "TCP") ↔
      (run fl emptyTable pre).1 K.key = some (K.record "TCP")) := by
  have hco : ∀ l : List Packet, Coherent (run fl emptyTable l).1 :=
    fun l => run_coherent fl l _ coherent_empty
  refine ⟨?_, tcp_entry_iff_record (hco pre) K⟩
  rw [tcp_entry_iff_record (hco pre) K]
  induction pre using List.reverseRecOn with
  | nil =>
    constructor
    · intro h; simp [emptyTable] at h
    · rintro ⟨a, q, b, h, _⟩
      simp at h
  | append_singleton pre r ih =>
    rw [run_append, run_singleton]
    simp only
    rw [step_tcp_entry fl _ r K hx (hco pre), ih, pending_split_snoc]

theorem tcp_entry_iff_initiation_pending_witness :
    (∃ c, (run textFlags emptyTable [tcpPacket clientIP serverIP 5000 443 true false]).1
        (Flow.key ⟨clientIP, 5000, serverIP, 443⟩) = some c ∧ c.Protocol = "TCP") ↔
      ∃ a q b, [tcpPacket clientIP serverIP 5000 443 true false] = a ++ q :: b ∧
        isInitiation ⟨clientIP, 5000, serverIP, 443⟩ q = true ∧
        (∀ x ∈ b, isInitiation ⟨clientIP, 5000, serverIP, 443⟩ x = false) ∧
        ∀ x ∈ b, isCompletion ⟨clientIP, 5000, serverIP, 443⟩ x = false :=
  (tcp_entry_iff_initiation_pending textFlags ⟨clientIP, 5000, serverIP, 443⟩
    [tcpPacket clientIP serverIP 5000 443 true false] rfl).1

/-! ## Coherence of keys and records -/

theorem processPacket_emission_flow (fl : Flags) (t : Table) (p : Packet) {e : Emission}
    (he : e ∈ (processPacket fl t p).2) : ∃ K, p.flow = some K := by
  cases hf : p.flow with
  | some K => exact ⟨K, rfl⟩
  | none =>
    rw [processPacket_no_flow fl t hf] at he
    simp at he

/-- C18: in every table reached from the empty table, the entry under the
key built from (src, srcport, dst, dstport) holds a record with exactly these
addresses and ports and the tag "TCP" or "UDP", and every key in use is such
a key; hence a record emitted while a packet is processed carries the
addresses and ports of that packet. -/
theorem key_record_coherence (fl : Flags) (ps : List Packet) :
    (∀ (K : Flow) (c : Connection), (run fl emptyTable ps).1 K.key = some c →
      c.SrcIP = K.src.String ∧ c.SrcPort = K.srcPort ∧ c.DstIP = K.dst.String ∧
        c.DstPort = K.dstPort ∧ (c.Protocol = "TCP" ∨ c.Protocol = "UDP")) ∧
    (∀ (k : String) (c : Connection), (run fl emptyTable ps).1 k = some c →
      ∃ K : Flow, k = K.key) ∧
    (∀ pre p post e, ps = pre ++ p :: post →
      e ∈ (processPacket fl (run fl emptyTable pre).1 p).2 →
      ∃ K : Flow, p.flow = some K ∧ e.conn.SrcIP = K.src.String ∧
        e.conn.SrcPort = K.srcPort ∧ e.conn.DstIP = K.dst.String ∧
        e.conn.DstPort = K.dstPort) := by
  have hco : ∀ l : List Packet, Coherent (run fl emptyTable l).1 :=
    fun l => run_coherent fl l _ coherent_empty
  refine ⟨?_, ?_, ?_⟩
  · intro K c hc
    rcases (hco ps).at_key hc with h | h <;> simp [h, Flow.record]
  · intro k c hc
    obtain ⟨K, hK, _⟩ := hco ps k c hc
    exact ⟨K, hK⟩
  · intro pre p post e _ he
    obtain ⟨K, hf⟩ := processPacket_emission_flow fl _ p he
    refine ⟨K, hf, ?_⟩
    rcases (processPacket_step fl _ p).emission_record (hco pre) hf he with h | h <;>
      simp [h, Flow.record]

/-- C19: the key string "src:srcport -> dst:dstport", with dotted decimal
addresses and decimal ports, is the same for two packets exactly when source
address, source port, destination address and destination port are the same;
this holds for all octets and ports, in particular for bytes and 16-bit
ports. -/
theorem connKey_eq_iff (s1 d1 s2 d2 : IP) (p1 q1 p2 q2 : Nat) :
    connKey s1 p1 d1 q1 = connKey s2 p2 d2 q2 ↔ s1 = s2 ∧ p1 = p2 ∧ d1 = d2 ∧ q1 = q2 := by
  constructor
  · exact connKey_injective
  · rintro ⟨h1, h2, h3, h4⟩
    rw [h1, h2, h3, h4]

end Monitor
